import Mathlib

/-!
Capacity pool manager (`poolmanager/manager.go`), with the trigger validation
of `api/models/trigger.go` and the handler of `api/server/fns_put.go` in
namespaces of their own (`models`, `server`).

A shallow embedding of the per-group capacity controller: the requirement
table (`UpdateRequirements`, `Purge`), the scale decision (`target`), the poll
step (`pollForRunners`) and the registry's snapshot ingress (`Merge`).

Conventions of the embedding

* Go `int64` values are integers kept in range by `wrap64` after every
  arithmetic operation, so overflow wraps as in Go.
* `time.Time` is an integer number of nanoseconds counted from the zero
  `time.Time`; `time.Duration` is an integer number of nanoseconds.  Every
  call receives the clock reading `now` as an argument.
* A Go `map[string]T` is an association list with one entry per key; ranging
  over it visits the entries in list order.
* The control plane is an oracle: its answers are arguments of the operation
  and the calls made are returned as a trace.
* The lock and the channel that synchronise the requirement table are
  explicit state: `cap_mx` and `controlStream` in `lbGroupState`, the registry
  lock and the `cap_mx` of every controller in `registryState`.  A call ends in
  an `Outcome`: it returns, or it blocks and never returns; either way it
  leaves a state behind, from which the next call (of another goroutine)
  starts.  A send on the nil channel blocks forever, and a lock held by a
  blocked call is never released.
* `LBGroup` is the lock-free reading of the registry lookup, used to state
  what `LBGroupSync` returns.  `run_mx` is taken and released by every call
  that uses it (`target`, `pollForRunners`, `GetMembers`) and is not
  represented.
* The `select` of the control loop is represented by its cases, one function
  per case (`controlPurge`), which also returns the calls the loop made.
* `float64` arithmetic is computed on exact fractions with rounding to a
  53-bit significand, ties to even (`provisionCount`).
-/

namespace poolmanager

/-! ## Machine integers -/

/-- Two's complement reduction of an integer to the `int64` range. -/
def wrap64 (x : Int) : Int := (x + 2 ^ 63) % 2 ^ 64 - 2 ^ 63

/-- Sum of a list of `int64` values, computed in `int64` arithmetic. -/
def sum64 : List Int → Int
  | [] => 0
  | x :: xs => wrap64 (x + sum64 xs)

/-! ## Association lists standing for Go maps -/

/-- Go `m[k]` with the comma-ok form: the value stored under `k`, if any. -/
def mapGet {β : Type} : List (String × β) → String → Option β
  | [], _ => none
  | (k, v) :: rest, key => if k = key then some v else mapGet rest key

/-- Go `m[k] = v`: overwrite the entry of `k`, or add one. -/
def mapSet {β : Type} : List (String × β) → String → β → List (String × β)
  | [], key, v => [(key, v)]
  | (k, w) :: rest, key, v =>
    if k = key then (k, v) :: rest else (k, w) :: mapSet rest key v

/-- Go `delete(m, k)`. -/
def mapDelete {β : Type} (m : List (String × β)) (key : String) : List (String × β) :=
  m.filter (fun e => decide (e.1 ≠ key))

/-! ## Data model -/

/-- The `requirement` struct: time of last update and the asserted total. -/
structure requirement where
  ts : Int
  total_wanted : Int
  deriving DecidableEq, Repr

def RUNNER_ACTIVE : Nat := 0
def RUNNER_DRAINING : Nat := 1
def RUNNER_DEAD : Nat := 2

/-- The `runner` struct. -/
structure runner where
  id : String
  address : String
  status : Nat
  capacity : Int
  kill_after : Int
  deriving DecidableEq, Repr

/-- The data fields of the `lbGroup` struct (locks, context and the control
plane handle are not data). -/
structure lbGroup where
  id : String
  total_wanted : Int
  requirements : List (String × requirement)
  current_capacity : Int
  target_capacity : Int
  runners : List (String × runner)
  active_runners : List runner
  draining_runners : List runner
  dead_runners : List runner
  deriving DecidableEq, Repr

/-- A runner as listed by the control plane (`cp.Runner`). -/
structure Host where
  Id : String
  Address : String
  Capacity : Int
  deriving DecidableEq, Repr

/-- Calls made on the control plane. -/
inductive CPCall where
  | ProvisionRunners (lbgId : String) (n : Int)
  | GetLBGRunners (lbgId : String)
  | RemoveRunner (lbgId : String) (id : String)
  deriving DecidableEq, Repr

/-- One entry of a `CapacitySnapshotList`: group id and the `uint64` wire
figure `mem_mb_total`. -/
structure CapacitySnapshot where
  GroupId : String
  MemMbTotal : Nat
  deriving DecidableEq, Repr

/-- The `CapacitySnapshotList` message. -/
structure CapacitySnapshotList where
  LbId : String
  Snapshots : List CapacitySnapshot
  deriving DecidableEq, Repr

/-- The `capacityManager` registry: group id to controller. -/
structure capacityManager where
  lbg : String → Option lbGroup

/-! ## Constants (nanoseconds) -/

def PURGE_INTERVAL : Int := 5000000000
def VALID_REQUEST_LIFETIME : Int := 500000000
def POLL_INTERVAL : Int := 1000000000
def LARGEST_REQUEST_AT_ONCE : Int := 20
def MAX_DRAINDOWN_LIFETIME : Int := 120000000000

/-! ## Requirement table -/

/-- `newLBGroup`: every field but the id has its zero value. -/
def newLBGroup (lbgid : String) : lbGroup :=
  { id := lbgid, total_wanted := 0, requirements := [], current_capacity := 0,
    target_capacity := 0, runners := [], active_runners := [],
    draining_runners := [], dead_runners := [] }

/-- The statements of `lbGroup.UpdateRequirements(lb, total)` that run under
`cap_mx` before the send (lines 139 to 157), at clock reading `now`: the group
with the table updated, and the event that the send of line 162 carries.  The
whole call, with the lock and the send, is `UpdateRequirements` below. -/
def UpdateRequirementsTable (s : lbGroup) (lb : String) (total : Int) (now : Int) :
    lbGroup × requirement :=
  let last : requirement := (mapGet s.requirements lb).getD ⟨0, 0⟩
  let tw := wrap64 (wrap64 (s.total_wanted - last.total_wanted) + total)
  ({ s with total_wanted := tw, requirements := mapSet s.requirements lb ⟨now, total⟩ },
   ⟨now, tw⟩)

/-- Body of the `range` loop of `Purge` for one visited entry: the state and
the LB ids handed to the callback so far. -/
def purgeStep (oldest : Int) (acc : lbGroup × List String) (e : String × requirement) :
    lbGroup × List String :=
  if e.2.ts < oldest then
    ({ acc.1 with
        total_wanted := wrap64 (acc.1.total_wanted - e.2.total_wanted),
        requirements := mapDelete acc.1.requirements e.1 },
     acc.2 ++ [e.1])
  else acc

/-- `lbGroup.Purge(oldest, cb)`: the new state, the LB ids on which `cb` was
invoked (in order) and the returned total. -/
def Purge (s : lbGroup) (oldest : Int) : lbGroup × List String × Int :=
  let r := s.requirements.foldl (purgeStep oldest) (s, [])
  (r.1, r.2, r.1.total_wanted)

/-! ## Scale decision -/

/-- The reactivation loop of `target`, at most `fuel` iterations. -/
def reactivate (tgt : Int) : Nat → lbGroup → lbGroup
  | 0, s => s
  | fuel + 1, s =>
    if tgt > s.target_capacity ∧ s.draining_runners.length > 0 then
      match s.draining_runners.getLast? with
      | none => s
      | some r =>
        reactivate tgt fuel
          { s with
            draining_runners := s.draining_runners.dropLast,
            active_runners := s.active_runners ++ [{ r with status := RUNNER_ACTIVE }],
            current_capacity := wrap64 (s.current_capacity + r.capacity),
            target_capacity := wrap64 (s.target_capacity + r.capacity) }
    else s

/-- The drain loop of `target`, at most `fuel` iterations; `C` is
`cp.CAPACITY_PER_RUNNER`. -/
def drain (C now tgt : Int) : Nat → lbGroup → lbGroup
  | 0, s => s
  | fuel + 1, s =>
    if tgt < wrap64 (s.current_capacity - C) ∧ s.active_runners.length > 0 then
      match s.active_runners.getLast? with
      | none => s
      | some r =>
        drain C now tgt fuel
          { s with
            active_runners := s.active_runners.dropLast,
            draining_runners := s.draining_runners ++
              [{ r with status := RUNNER_DRAINING, kill_after := now + MAX_DRAINDOWN_LIFETIME }],
            current_capacity := wrap64 (s.current_capacity - r.capacity),
            target_capacity := wrap64 (s.target_capacity - r.capacity) }
    else s

/-! ### The `float64` arithmetic of the provisioning request

`target` computes `math.Min(math.Ceil(float64(delta)/C), LARGEST_REQUEST_AT_ONCE)`
in `float64`.  The values that occur are quotients of integers below `2^64` in
absolute value, all in the normal range of `float64`, so a value is kept as an
exact fraction and each operation rounds to a 53-bit significand, ties to
even, as IEEE 754 prescribes. -/

/-- Position of the highest set bit of `n`, by at most `fuel` halvings. -/
def log2Fuel : Nat → Nat → Nat
  | 0, _ => 0
  | fuel + 1, n => if n < 2 then 0 else log2Fuel fuel (n / 2) + 1

/-- The integer binary logarithm of `n`, for `0 < n < 2^128`. -/
def ilog2 (n : Nat) : Nat := log2Fuel 128 n

/-- The integer nearest to `num / den`, a tie going to the even one. -/
def roundHalfEven (num den : Nat) : Nat :=
  if den < 2 * (num % den) ∨ (2 * (num % den) = den ∧ (num / den) % 2 = 1) then num / den + 1
  else num / den

/-- The conversion `float64(n)` of a natural number, as the integer it yields:
`n` itself below `2^53`, else `n` rounded to 53 significant bits. -/
def float64OfNat (n : Nat) : Nat :=
  if n < 2 ^ 53 then n
  else roundHalfEven n (2 ^ (ilog2 n - 52)) * 2 ^ (ilog2 n - 52)

/-- The scale `S` at which the `float64` quotient `a / c` has its significand:
`a * 2^S / (c * 2^(ilog2 a))` lies in `[2^52, 2^53)`. -/
def float64QuotScale (a c : Nat) : Nat :=
  if c * 2 ^ ilog2 a ≤ a * 2 ^ ilog2 c then 52 + ilog2 c else 53 + ilog2 c

/-- The significand of the `float64` quotient `a / c`: the quotient is
`float64QuotMant a c * 2^(ilog2 a) / 2^(float64QuotScale a c)`. -/
def float64QuotMant (a c : Nat) : Nat :=
  roundHalfEven (a * 2 ^ float64QuotScale a c) (c * 2 ^ ilog2 a)

/-- `math.Ceil` of the `float64` quotient `a / c`, for positive `a` and `c`. -/
def float64QuotCeil (a c : Nat) : Nat :=
  (float64QuotMant a c * 2 ^ ilog2 a + 2 ^ float64QuotScale a c - 1) / 2 ^ float64QuotScale a c

/-- `math.Floor` of the `float64` quotient `a / c`, for positive `a` and `c`. -/
def float64QuotFloor (a c : Nat) : Nat :=
  float64QuotMant a c * 2 ^ ilog2 a / 2 ^ float64QuotScale a c

/-- The number of runners to request for a shortfall `delta`:
`int(math.Min(math.Ceil(float64(delta)/C), LARGEST_REQUEST_AT_ONCE))`, every
step in `float64`: `delta` and the constant `C` are converted, the quotient is
rounded, a positive quotient is rounded up and clamped, a negative one is
rounded up (towards zero) and is below the clamp.  Go does not compile a
division by the constant 0; for `C = 0` the value is that of an IEEE quotient
by zero converted as on amd64. -/
def provisionCount (C delta : Int) : Int :=
  if C = 0 then (if 0 < delta then LARGEST_REQUEST_AT_ONCE else -2 ^ 63)
  else if delta = 0 then 0
  else if (0 < delta ∧ 0 < C) ∨ (delta < 0 ∧ C < 0) then
    min (float64QuotCeil (float64OfNat delta.natAbs) (float64OfNat C.natAbs) : Int)
      LARGEST_REQUEST_AT_ONCE
  else -(float64QuotFloor (float64OfNat delta.natAbs) (float64OfNat C.natAbs) : Int)

/-- The part of `target` that runs under `run_mx`, after the freshness gate:
`C = cp.CAPACITY_PER_RUNNER`, `prov n` is the control plane's answer to
`ProvisionRunners(id, n)` (`none` for an error).  The new state and the
control plane calls made. -/
def targetLocked (C now : Int) (prov : Int → Option Int) (s : lbGroup) (tgt : Int) :
    lbGroup × List CPCall :=
  if tgt > s.target_capacity then
    let s1 := reactivate tgt s.draining_runners.length s
    if tgt > s1.target_capacity then
      let wanted := provisionCount C (wrap64 (tgt - s1.target_capacity))
      match prov wanted with
      | none => (s1, [CPCall.ProvisionRunners s1.id wanted])
      | some asked_for =>
        ({ s1 with target_capacity := wrap64 (s1.target_capacity + wrap64 (asked_for * C)) },
         [CPCall.ProvisionRunners s1.id wanted])
    else (s1, [])
  else if tgt < wrap64 (s.current_capacity - C) then
    (drain C now tgt s.active_runners.length s, [])
  else (s, [])

/-- `lbGroup.target(ts, target)` at clock reading `now`: a request older than
`VALID_REQUEST_LIFETIME` is dropped, any other is handled under the lock. -/
def target (C now : Int) (prov : Int → Option Int) (s : lbGroup) (ts tgt : Int) :
    lbGroup × List CPCall :=
  if now - ts > VALID_REQUEST_LIFETIME then (s, [])
  else targetLocked C now prov s tgt

/-! ## Poll step -/

/-- The expiry loop of `pollForRunners`, at most `fuel` iterations: the state
and the `RemoveRunner` calls made. -/
def expire (now : Int) : Nat → lbGroup × List CPCall → lbGroup × List CPCall
  | 0, acc => acc
  | fuel + 1, (s, calls) =>
    match s.draining_runners with
    | [] => (s, calls)
    | r :: rest =>
      if now > r.kill_after then
        expire now fuel
          ({ s with
              draining_runners := rest,
              dead_runners := s.dead_runners ++ [{ r with status := RUNNER_DEAD }] },
           calls ++ [CPCall.RemoveRunner s.id r.id])
      else (s, calls)

/-- Body of the loop over the listed hosts: the state and the `seen` set. -/
def reconcileStep (acc : lbGroup × List String) (host : Host) : lbGroup × List String :=
  match mapGet acc.1.runners host.Id with
  | some _ => (acc.1, acc.2 ++ [host.Id])
  | none =>
    ({ acc.1 with
        active_runners := acc.1.active_runners ++
          [{ id := host.Id, address := host.Address, status := RUNNER_ACTIVE,
             capacity := host.Capacity, kill_after := 0 }],
        current_capacity := wrap64 (acc.1.current_capacity + host.Capacity) },
     acc.2)

/-- `lbGroup.pollForRunners()` at clock reading `now`; `latestHosts` is the
control plane's answer to `GetLBGRunners` (`none` for an error).  The answers
to `RemoveRunner` are only logged. -/
def pollForRunners (now : Int) (latestHosts : Option (List Host)) (s : lbGroup) :
    lbGroup × List CPCall :=
  let e := expire now s.draining_runners.length (s, [])
  let calls := e.2 ++ [CPCall.GetLBGRunners e.1.id]
  match latestHosts with
  | none => (e.1, calls)
  | some hosts =>
    let r := hosts.foldl reconcileStep (e.1, [])
    ({ r.1 with dead_runners := r.1.dead_runners.filter (fun d => decide (d.id ∈ r.2)) },
     calls)

/-! ## Registry and ingress -/

/-- `NewCapacityManager`: an empty registry. -/
def NewCapacityManager : capacityManager := { lbg := fun _ => none }

/-- `capacityManager.LBGroup(lbgid)`: the registry after the call and the
controller returned. -/
def LBGroup (m : capacityManager) (lbgid : String) : capacityManager × lbGroup :=
  match m.lbg lbgid with
  | some g => (m, g)
  | none =>
    let g := newLBGroup lbgid
    ({ lbg := fun k => if k = lbgid then some g else m.lbg k }, g)

/-! ## Reachable states -/

/-- Group states reachable from a new group by `target` decisions and poll
steps, with arbitrary control-plane answers. -/
inductive RunReachable (gid : String) (C : Int) : lbGroup → Prop where
  | init : RunReachable gid C (newLBGroup gid)
  | target {s : lbGroup} (now : Int) (prov : Int → Option Int) (ts tgt : Int) :
      RunReachable gid C s → RunReachable gid C (target C now prov s ts tgt).1
  | poll {s : lbGroup} (now : Int) (latestHosts : Option (List Host)) :
      RunReachable gid C s → RunReachable gid C (pollForRunners now latestHosts s).1

/-! ## Auxiliary definitions used in the statements -/

/-- The recorded totals of a requirement table. -/
def totals (m : List (String × requirement)) : List Int := m.map (fun e => e.2.total_wanted)

/-- The keys of an association list. -/
def keys {β : Type} (m : List (String × β)) : List String := m.map Prod.fst

/-- Entries a purge with threshold `oldest` removes: timestamp strictly before
`oldest`. -/
def purged (oldest : Int) (m : List (String × requirement)) : List (String × requirement) :=
  m.filter (fun e => decide (e.2.ts < oldest))

/-- Entries a purge with threshold `oldest` keeps: timestamp at or after
`oldest`. -/
def retained (oldest : Int) (m : List (String × requirement)) : List (String × requirement) :=
  m.filter (fun e => decide (oldest ≤ e.2.ts))

/-- Successive `int64` subtraction of the totals of `l` from `t`. -/
def subtractAll (t : Int) (l : List (String × requirement)) : Int :=
  l.foldl (fun acc e => wrap64 (acc - e.2.total_wanted)) t

/-- A group state whose table holds a report of 600 by `lb1` at time 10 and a
report of 900 by `lb2` at time 20. -/
def twoReports : lbGroup :=
  { id := "G", total_wanted := 1500,
    requirements := [("lb1", ⟨10, 600⟩), ("lb2", ⟨20, 900⟩)],
    current_capacity := 0, target_capacity := 0, runners := [], active_runners := [],
    draining_runners := [], dead_runners := [] }

/-- Capacities of a list of runners. -/
def capacities (l : List runner) : List Int := l.map (fun r => r.capacity)

/-- Two runners of capacity 512 as the control plane lists them. -/
def twoHosts : List Host :=
  [{ Id := "r1", Address := "10.0.0.1", Capacity := 512 },
   { Id := "r2", Address := "10.0.0.2", Capacity := 512 }]

/-- A group that asked for 1024 (two runners granted), saw both runners in a
poll and then drained one of them on a decision with `wanted = 0`. -/
def oneActiveOneDraining : lbGroup :=
  (target 512 2 (fun n => some n)
    (pollForRunners 1 (some twoHosts)
      (target 512 0 (fun n => some n) (newLBGroup "G") 0 1024).1).1 2 0).1

/-- The active-capacity relation: `current_capacity` is the `int64` value of
the sum of the capacities of the active runners. -/
def ActiveCapacityOk (s : lbGroup) : Prop :=
  s.current_capacity = wrap64 (capacities s.active_runners).sum

/-- One runner of capacity 512 as the control plane lists it. -/
def oneHost : List Host := [{ Id := "r1", Address := "10.0.0.1", Capacity := 512 }]

/-- A group that asked for 512 (one runner granted) and then polled twice,
the control plane listing that one runner both times. -/
def polledTwice : lbGroup :=
  (pollForRunners 2 (some oneHost)
    (pollForRunners 1 (some oneHost)
      (target 512 0 (fun n => some n) (newLBGroup "G") 0 512).1).1).1

/-- Running `int64` addition of the capacities of `l` to `t`, in list order. -/
def addCaps (t : Int) (l : List runner) : Int :=
  l.foldl (fun acc r => wrap64 (acc + r.capacity)) t

/-- Running `int64` subtraction of the capacities of `l` from `t`, in list
order. -/
def subCaps (t : Int) (l : List runner) : Int :=
  l.foldl (fun acc r => wrap64 (acc - r.capacity)) t

/-- A runner as the reactivation loop leaves it. -/
def markActive (r : runner) : runner := { r with status := RUNNER_ACTIVE }

/-- A runner as the drain loop leaves it at clock reading `now`. -/
def markDraining (now : Int) (r : runner) : runner :=
  { r with status := RUNNER_DRAINING, kill_after := now + MAX_DRAINDOWN_LIFETIME }

/-- A runner as the expiry loop leaves it. -/
def markDead (r : runner) : runner := { r with status := RUNNER_DEAD }

/-- The expiry test of the poll step: `now.After(r.kill_after)`. -/
def expired (now : Int) (r : runner) : Bool := decide (now > r.kill_after)

/-- Group states reachable from a new group by `target` decisions and poll
steps in which every control-plane listing names each runner id at most
once. -/
inductive ListedOnceReachable (gid : String) (C : Int) : lbGroup → Prop where
  | init : ListedOnceReachable gid C (newLBGroup gid)
  | target {s : lbGroup} (now : Int) (prov : Int → Option Int) (ts tgt : Int) :
      ListedOnceReachable gid C s → ListedOnceReachable gid C (target C now prov s ts tgt).1
  | poll {s : lbGroup} (now : Int) (latestHosts : Option (List Host)) :
      ListedOnceReachable gid C s →
      (∀ hosts, latestHosts = some hosts → (hosts.map (fun h => h.Id)).Nodup) →
      ListedOnceReachable gid C (pollForRunners now latestHosts s).1

/-- The runner ids of the three collections of a group, active first, then
draining, then dead. -/
def allRunnerIds (s : lbGroup) : List String :=
  (s.active_runners ++ s.draining_runners ++ s.dead_runners).map (fun r => r.id)

/-- A new group polled twice, the control plane listing the same single
runner both times. -/
def listedTwice : lbGroup :=
  (pollForRunners 2 (some oneHost) (pollForRunners 1 (some oneHost) (newLBGroup "G")).1).1

/-- Group states reachable from a new group by `target` decisions and poll
steps whose clock readings never go back; the index is the latest clock
reading. -/
inductive ClockReachable (gid : String) (C : Int) : Int → lbGroup → Prop where
  | init (t0 : Int) : ClockReachable gid C t0 (newLBGroup gid)
  | target {clock : Int} {s : lbGroup} (now : Int) (prov : Int → Option Int) (ts tgt : Int) :
      ClockReachable gid C clock s → clock ≤ now →
      ClockReachable gid C now (target C now prov s ts tgt).1
  | poll {clock : Int} {s : lbGroup} (now : Int) (latestHosts : Option (List Host)) :
      ClockReachable gid C clock s → clock ≤ now →
      ClockReachable gid C now (pollForRunners now latestHosts s).1

/-- Three runners of capacity 512 as the control plane lists them. -/
def threeHosts : List Host :=
  [{ Id := "r1", Address := "10.0.0.1", Capacity := 512 },
   { Id := "r2", Address := "10.0.0.2", Capacity := 512 },
   { Id := "r3", Address := "10.0.0.3", Capacity := 512 }]

/-- A group that asked for 1500 at time 0 (three runners granted) and saw the
three runners in a poll at time 1. -/
def threeActive : lbGroup :=
  (pollForRunners 1 (some threeHosts)
    (target 512 0 (fun n => some n) (newLBGroup "G") 0 1500).1).1

/-- The group `threeActive` after a decision with `wanted = 600` at time 10:
one runner is draining. -/
def drainedOne : lbGroup := (target 512 10 (fun n => some n) threeActive 10 600).1

/-- The group `drainedOne` after a decision with `wanted = 0` at time 20: two
runners are draining. -/
def drainedTwo : lbGroup := (target 512 20 (fun n => some n) drainedOne 20 0).1

/-! ### Members query -/

/-- `lbGroup.GetMembers()`: a slice of `len(active_runners)` strings is made
and filled by index; the group itself is only read.  The group after the call
and the slice returned. -/
def GetMembers (s : lbGroup) : lbGroup × List String :=
  (s, s.active_runners.enum.foldl (fun members ir => members.set ir.1 ir.2.address)
        (List.replicate s.active_runners.length ""))

/-! ### The registry with its lock -/

/-- State of a `sync.RWMutex`: the number of read locks held and whether the
write lock is held. -/
structure RWMutex where
  readers : Nat
  writer : Bool
  deriving DecidableEq, Repr

/-- `mx.RLock()`: `none` when the caller blocks (the write lock is held). -/
def RWMutex.RLock (mx : RWMutex) : Option RWMutex :=
  if mx.writer then none else some { mx with readers := mx.readers + 1 }

/-- `mx.RUnlock()`. -/
def RWMutex.RUnlock (mx : RWMutex) : RWMutex := { mx with readers := mx.readers - 1 }

/-- `mx.Lock()`: `none` when the caller blocks (a read or the write lock is
held). -/
def RWMutex.Lock (mx : RWMutex) : Option RWMutex :=
  if mx.writer ∨ mx.readers > 0 then none else some { mx with writer := true }

/-- A lock nobody holds. -/
def RWMutex.free : RWMutex := { readers := 0, writer := false }

/-- `capacityManager.LBGroup(lbgid)` with the lock `m.mx` as explicit state, in
a run in which no other goroutine touches the registry: the lock and the
registry after the call and the controller returned, or `none` when the call
blocks and never returns.  The deferred `m.mx.Lock()` runs when the function
returns on either of the two slow paths. -/
def LBGroupSync (mx : RWMutex) (m : capacityManager) (lbgid : String) :
    Option (RWMutex × capacityManager × lbGroup) :=
  match mx.RLock with
  | none => none
  | some mx1 =>
    match m.lbg lbgid with
    | some g => some (mx1.RUnlock, m, g)
    | none =>
      let mx2 := mx1.RUnlock
      match m.lbg lbgid with
      | some g => mx2.Lock.map (fun mx3 => (mx3, m, g))
      | none =>
        let g := newLBGroup lbgid
        mx2.Lock.map (fun mx3 =>
          (mx3, { lbg := fun k => if k = lbgid then some g else m.lbg k }, g))

/-- Two successive calls `LBGroup(lbgid)` with the lock as explicit state: the
controllers returned by the first and by the second call. -/
def LBGroupTwice (mx : RWMutex) (m : capacityManager) (lbgid : String) :
    Option (lbGroup × lbGroup) :=
  match LBGroupSync mx m lbgid with
  | none => none
  | some (mx1, m1, g1) =>
    match LBGroupSync mx1 m1 lbgid with
    | none => none
    | some (_, _, g2) => some (g1, g2)

/-! ### The control loop -/

/-- The local variables of `lbGroup.control`. -/
structure controlVars where
  lastPurge : Int
  nextPurge : Int
  nextPoll : Int
  deriving DecidableEq, Repr

/-- The variables of `control` when the loop is entered at clock reading
`t0`. -/
def controlInit (t0 : Int) : controlVars :=
  { lastPurge := t0, nextPurge := t0 + PURGE_INTERVAL, nextPoll := t0 + POLL_INTERVAL }

/-- A new group after one poll in which the control plane lists the single
runner `r1`. -/
def polledOnce : lbGroup := (pollForRunners 1 (some oneHost) (newLBGroup "G")).1

/-- The state of the registry lock at the statement `m.lbg[lbgid] = lbg` of
`capacityManager.LBGroup`, or `none` when the call does not reach it: the read
lock has been released and the deferred `m.mx.Lock()` has not run yet. -/
def LBGroupLockAtWrite (mx : RWMutex) (m : capacityManager) (lbgid : String) :
    Option RWMutex :=
  match mx.RLock with
  | none => none
  | some mx1 =>
    match m.lbg lbgid with
    | some _ => none
    | none =>
      let mx2 := mx1.RUnlock
      match m.lbg lbgid with
      | some _ => none
      | none => some mx2

/-! ### The capacity-change channel -/

/-- A Go `chan requirement` made by `make`: its buffer capacity and the
buffered events.  A channel variable is an `Option Chan`, `none` being the nil
channel. -/
structure Chan where
  cap : Nat
  buf : List requirement
  deriving DecidableEq, Repr

/-- The `controlStream` field of the group that `newLBGroup` returns: the
struct literal sets `ctx`, `id`, `cp` and `requirements`, and no statement of
the package assigns `controlStream`, so it is the zero value of a channel
type, the nil channel. -/
def newLBGroup_controlStream : Option Chan := none

/-- A send `ch <- ev`; `receiverReady` says whether a goroutine is waiting to
receive.  The channel after the send, or `none` when the sender blocks: a send
on the nil channel blocks forever, whoever is receiving. -/
def chanSend (ch : Option Chan) (receiverReady : Bool) (ev : requirement) :
    Option (Option Chan) :=
  match ch with
  | none => none
  | some c =>
    if receiverReady ∧ c.buf = [] then some (some c)
    else if c.buf.length < c.cap then some (some { c with buf := c.buf ++ [ev] })
    else none

/-- The table update of `lbGroup.UpdateRequirements(lb, total)` followed by
its last statement, the send on `controlStream`: the group and the channel when
the call returns, `none` when it blocks. -/
def UpdateRequirementsSend (ch : Option Chan) (receiverReady : Bool) (s : lbGroup)
    (lb : String) (total now : Int) : Option (lbGroup × Option Chan) :=
  let r := UpdateRequirementsTable s lb total now
  (chanSend ch receiverReady r.2).map (fun ch2 => (r.1, ch2))

/-! ### Calls with their locks -/

/-- An `lbGroup` with the two fields that synchronise its capacity
requirements: whether `cap_mx` is held, and the `controlStream` channel. -/
structure lbGroupState where
  g : lbGroup
  cap_mx : Bool
  controlStream : Option Chan
  deriving DecidableEq, Repr

/-- How a call ends: it returns, or it blocks and does not return.  Either way
the state it leaves behind is recorded; a later call by another goroutine
starts from that state. -/
inductive Outcome (σ : Type) where
  | returned (s : σ)
  | blocked (s : σ)
  deriving DecidableEq, Repr

/-- The state a call leaves behind. -/
def Outcome.state {σ : Type} : Outcome σ → σ
  | Outcome.returned s => s
  | Outcome.blocked s => s

/-- Whether the call returns. -/
def Outcome.returns {σ : Type} : Outcome σ → Bool
  | Outcome.returned _ => true
  | Outcome.blocked _ => false

/-- The controller that `newLBGroup(lbgid, ctx, cp)` returns: the zero values
but for the id, `cap_mx` free, and the channel `newLBGroup` leaves in
`controlStream`. -/
def newLBGroupState (lbgid : String) : lbGroupState :=
  { g := newLBGroup lbgid, cap_mx := false, controlStream := newLBGroup_controlStream }

/-- `lbGroup.UpdateRequirements(lb, total)`, the whole call, at clock reading
`now`: it waits for `cap_mx` (held, it blocks), updates the table, and sends the
event on `controlStream`; when the send blocks, the deferred `cap_mx.Unlock()`
has not run and the lock stays held.  A lock held by a call that is blocked in
a send on the nil channel is never released. -/
def UpdateRequirements (receiverReady : Bool) (st : lbGroupState) (lb : String)
    (total now : Int) : Outcome lbGroupState :=
  if st.cap_mx then Outcome.blocked st
  else
    match chanSend st.controlStream receiverReady (UpdateRequirementsTable st.g lb total now).2 with
    | none =>
      Outcome.blocked
        { st with g := (UpdateRequirementsTable st.g lb total now).1, cap_mx := true }
    | some ch =>
      Outcome.returned
        { g := (UpdateRequirementsTable st.g lb total now).1, cap_mx := false,
          controlStream := ch }

/-- The registry with its lock `mx`, the controllers it maps to, and for each
of them whether its `cap_mx` is held.  Every controller is made by
`newLBGroup` and nothing assigns `controlStream`, so each has the channel
`newLBGroup_controlStream`. -/
structure registryState where
  mx : RWMutex
  m : capacityManager
  cap_mx : String → Bool

/-- A registry made by `NewCapacityManager`: lock free, no controller. -/
def newRegistryState : registryState :=
  { mx := RWMutex.free, m := NewCapacityManager, cap_mx := fun _ => false }

/-- The registry after a call on the controller `gid` left that controller in
state `gs`, the registry lock being `mx` and the map `m`. -/
def registryState.put (st : registryState) (mx : RWMutex) (m : capacityManager) (gid : String)
    (gs : lbGroupState) : registryState :=
  { mx := mx,
    m := { lbg := fun k => if k = gid then some gs.g else m.lbg k },
    cap_mx := fun k => if k = gid then gs.cap_mx else st.cap_mx k }

/-- Body of the loop of `Merge` for one snapshot:
`m.LBGroup(lbg).UpdateRequirements(lbid, int64(new_req.GetMemMbTotal()))`.  The
`cap_mx` of a controller just created is free. -/
def mergeStep (receiverReady : Bool) (lbid : String) (now : Int) (st : registryState)
    (new_req : CapacitySnapshot) : Outcome registryState :=
  match LBGroupSync st.mx st.m new_req.GroupId with
  | none => Outcome.blocked st
  | some (mx2, m2, g) =>
    match UpdateRequirements receiverReady
        { g := g,
          cap_mx := if (st.m.lbg new_req.GroupId).isSome then st.cap_mx new_req.GroupId
                    else false,
          controlStream := newLBGroup_controlStream }
        lbid (wrap64 new_req.MemMbTotal) now with
    | Outcome.blocked gs => Outcome.blocked (st.put mx2 m2 new_req.GroupId gs)
    | Outcome.returned gs => Outcome.returned (st.put mx2 m2 new_req.GroupId gs)

/-- The loop of `Merge` over the snapshots: a step that blocks ends it. -/
def mergeLoop (receiverReady : Bool) (lbid : String) (now : Int) :
    List CapacitySnapshot → registryState → Outcome registryState
  | [], st => Outcome.returned st
  | new_req :: rest, st =>
    match mergeStep receiverReady lbid now st new_req with
    | Outcome.blocked s => Outcome.blocked s
    | Outcome.returned s => mergeLoop receiverReady lbid now rest s

/-- `capacityManager.Merge(list)` at clock reading `now`. -/
def Merge (receiverReady : Bool) (st : registryState) (now : Int)
    (list : CapacitySnapshotList) : Outcome registryState :=
  mergeLoop receiverReady list.LbId now list.Snapshots st

/-- A call the control loop makes in its purge case. -/
inductive ControlCall where
  | Purge (oldest : Int)
  | target (ts : Int) (need : Int)
  deriving DecidableEq, Repr

/-- The purge case of the `select` in `control`, taken at clock reading `now`:
`need := lbg.Purge(lastPurge, ...)`, which waits for `cap_mx`; then
`lastPurge := time.Now()` declares a variable of the case's own block (the
loop's `lastPurge` is not assigned), `nextPurge` is set from it and
`lbg.target(lastPurge, need)` is called with it.  The loop variables and the
group when the case is done or blocked, the calls the loop made on the group,
and the control plane calls made. -/
def controlPurge (C now : Int) (prov : Int → Option Int) (c : controlVars)
    (st : lbGroupState) :
    Outcome (controlVars × lbGroupState) × List ControlCall × List CPCall :=
  if st.cap_mx then (Outcome.blocked (c, st), [ControlCall.Purge c.lastPurge], [])
  else
    let p := Purge st.g c.lastPurge
    let need := p.2.2
    let lastPurge := now
    let r := target C now prov p.1 lastPurge need
    (Outcome.returned ({ c with nextPurge := lastPurge + PURGE_INTERVAL }, { st with g := r.1 }),
     [ControlCall.Purge c.lastPurge, ControlCall.target lastPurge need], r.2)

end poolmanager

/-! # API models (`api/models/trigger.go`) -/

namespace models

/-- Error values of the API: the constants of package `models` that the
embedded functions name, an error returned by `Annotations.Validate`, any other
API error, and an error that is no API error.  Go's `nil` error is `none` of
`Option Err`. -/
inductive Err where
  | ErrInvalidJSON
  | ErrIDMismatch
  | ErrIDProvided
  | ErrCreatedAtProvided
  | ErrUpdatedAtProvided
  | ErrMissingName
  | ErrTooLongName
  | ErrInvalidName
  | ErrMissingAppID
  | ErrMissingFnID
  | ErrTriggerTypeUnknown
  | ErrTriggerMissingSource
  | annotations (msg : String)
  | apiError (msg : String)
  | plain (msg : String)
  deriving DecidableEq, Repr

/-- `models.IsAPIError`: every value above but a plain error is an API
error. -/
def IsAPIError : Err → Bool
  | Err.plain _ => false
  | _ => true

/-- The `Annotations` map: key to raw JSON value. -/
abbrev Annotations := List (String × String)

/-- The `Trigger` struct (its field `Type` is `TriggerType` here); the two
timestamps are nanoseconds counted from the zero `time.Time`, so `IsZero` is
equality with 0. -/
structure Trigger where
  ID : String
  Name : String
  AppID : String
  FnID : String
  CreatedAt : Int
  UpdatedAt : Int
  TriggerType : String
  Source : String
  Annotations : Annotations
  deriving DecidableEq, Repr

/-- What `Trigger.Validate` and `Trigger.ValidCreate` use from outside the
file: the constant `maxTriggerName`, the rune classes `unicode.IsLetter` and
`unicode.IsNumber`, and `Annotations.Validate`. -/
structure Externals where
  maxTriggerName : Nat
  IsLetter : Char → Bool
  IsNumber : Char → Bool
  AnnotationsValidate : Annotations → Option Err

/-- The package variable `triggerTypes`. -/
def triggerTypes : List String := ["HTTP"]

/-- The loop of `validTriggerType` over a list of types. -/
def validTriggerTypeIn : List String → String → Bool
  | [], _ => false
  | b :: rest, a => if b = a then true else validTriggerTypeIn rest a

/-- `validTriggerType(a)`. -/
def validTriggerType (a : String) : Bool := validTriggerTypeIn triggerTypes a

/-- `Trigger.Validate()`. -/
def Validate (x : Externals) (t : Trigger) : Option Err :=
  if t.Name = "" then some Err.ErrMissingName
  else if t.AppID = "" then some Err.ErrMissingAppID
  else if t.FnID = "" then some Err.ErrMissingFnID
  else if validTriggerType t.TriggerType = false then some Err.ErrTriggerTypeUnknown
  else if t.Source = "" then some Err.ErrTriggerMissingSource
  else
    match x.AnnotationsValidate t.Annotations with
    | some err => some err
    | none => none

/-- The loop of `ValidCreate` over the runes of the name: `true` when no rune
makes it return `ErrInvalidName`. -/
def nameRunesOk (x : Externals) : List Char → Bool
  | [] => true
  | c :: rest =>
    if !(x.IsLetter c || x.IsNumber c || c == '_' || c == '-') then false
    else nameRunesOk x rest

/-- `Trigger.ValidCreate()`; `len(t.Name)` is the length in bytes, and the
`range` loop visits the runes of the name, a string of Unicode characters. -/
def ValidCreate (x : Externals) (t : Trigger) : Option Err :=
  if t.ID ≠ "" then some Err.ErrIDProvided
  else if t.CreatedAt ≠ 0 then some Err.ErrCreatedAtProvided
  else if t.UpdatedAt ≠ 0 then some Err.ErrUpdatedAtProvided
  else if t.Name = "" then some Err.ErrMissingName
  else if t.Name.utf8ByteSize > x.maxTriggerName then some Err.ErrTooLongName
  else if nameRunesOk x t.Name.data = false then some Err.ErrInvalidName
  else if t.AppID = "" then some Err.ErrMissingAppID
  else if t.FnID = "" then some Err.ErrMissingFnID
  else if validTriggerType t.TriggerType = false then some Err.ErrTriggerTypeUnknown
  else if t.Source = "" then some Err.ErrTriggerMissingSource
  else
    match x.AnnotationsValidate t.Annotations with
    | some err => some err
    | none => none

/-- Stand-ins for the externals in examples: names of at most 30 bytes, ASCII
letters and digits, annotations always valid. -/
def exampleExternals : Externals :=
  { maxTriggerName := 30, IsLetter := Char.isAlpha, IsNumber := Char.isDigit,
    AnnotationsValidate := fun _ => none }

/-- A trigger as a client may post it for creation. -/
def exampleTrigger : Trigger :=
  { ID := "", Name := "my-trigger_1", AppID := "app1", FnID := "fn1", CreatedAt := 0,
    UpdatedAt := 0, TriggerType := "HTTP", Source := "/hook", Annotations := [] }

end models

/-! # API server (`api/server/fns_put.go`) -/

namespace server

/-- The part of `models.Fn` the handler looks at, the id, and the rest of the
body as one field. -/
structure Fn where
  ID : String
  body : String
  deriving DecidableEq, Repr

/-- What the handler does to the outside, in order: a response written by
`handleErrorResponse`, a call of `s.datastore.UpdateFn`, a response written by
`c.JSON`. -/
inductive Effect where
  | handleErrorResponse (err : models.Err)
  | UpdateFn (fn : Fn)
  | JSON (status : Nat) (fn : Fn)
  deriving DecidableEq, Repr

/-- `http.StatusOK`. -/
def StatusOK : Nat := 200

/-- `Server.handleFnPut`: `bind` is the outcome of `c.BindJSON(&fn)`, `fnId`
the path parameter `c.Param(api.FnID)` and `UpdateFn` the datastore's answer.
The effects of the handler, in order. -/
def handleFnPut (bind : Except models.Err Fn) (fnId : String)
    (UpdateFn : Fn → Except models.Err Fn) : List Effect :=
  match bind with
  | Except.error err =>
    let err := if !models.IsAPIError err then models.Err.ErrInvalidJSON else err
    [Effect.handleErrorResponse err]
  | Except.ok fn =>
    let mismatch :=
      if fnId ≠ fn.ID then [Effect.handleErrorResponse models.Err.ErrIDMismatch] else []
    match UpdateFn fn with
    | Except.error err => mismatch ++ [Effect.UpdateFn fn, Effect.handleErrorResponse err]
    | Except.ok fn2 => mismatch ++ [Effect.UpdateFn fn, Effect.JSON StatusOK fn2]

end server

namespace poolmanager

/-! ## Arithmetic of `wrap64` -/

theorem wrap64_of_range {x : Int} (h1 : -2 ^ 63 ≤ x) (h2 : x < 2 ^ 63) : wrap64 x = x := by
  unfold wrap64; omega

theorem wrap64_range (x : Int) : -2 ^ 63 ≤ wrap64 x ∧ wrap64 x < 2 ^ 63 := by
  unfold wrap64; omega

theorem wrap64_add_left (a b : Int) : wrap64 (wrap64 a + b) = wrap64 (a + b) := by
  unfold wrap64; omega

theorem wrap64_add_right (a b : Int) : wrap64 (a + wrap64 b) = wrap64 (a + b) := by
  unfold wrap64; omega

theorem wrap64_sub_left (a b : Int) : wrap64 (wrap64 a - b) = wrap64 (a - b) := by
  unfold wrap64; omega

theorem wrap64_sub_right (a b : Int) : wrap64 (a - wrap64 b) = wrap64 (a - b) := by
  unfold wrap64; omega

theorem wrap64_idem (a : Int) : wrap64 (wrap64 a) = wrap64 a := by
  unfold wrap64; omega

theorem sum64_eq (l : List Int) : sum64 l = wrap64 l.sum := by
  induction l with
  | nil => decide
  | cons x xs ih => simp only [sum64, ih, List.sum_cons, wrap64_add_right]

/-! ## Association lists -/

theorem mapGet_none_of_not_mem {β : Type} (m : List (String × β)) (k : String)
    (h : k ∉ keys m) : mapGet m k = none := by
  induction m with
  | nil => rfl
  | cons e rest ih =>
    obtain ⟨k0, v0⟩ := e
    simp only [keys, List.map_cons, List.mem_cons, not_or] at h
    have hne : ¬ k0 = k := fun hk => h.1 hk.symm
    simp only [mapGet, hne, if_false]
    exact ih h.2

theorem mapGet_mapSet_same {β : Type} (m : List (String × β)) (k : String) (v : β) :
    mapGet (mapSet m k v) k = some v := by
  induction m with
  | nil => simp [mapSet, mapGet]
  | cons e rest ih =>
    obtain ⟨k0, v0⟩ := e
    by_cases hk : k0 = k
    · simp [mapSet, mapGet, hk]
    · simp [mapSet, mapGet, hk, ih]

theorem mapGet_mapSet_other {β : Type} (m : List (String × β)) (k k1 : String) (v : β)
    (hne : k1 ≠ k) : mapGet (mapSet m k v) k1 = mapGet m k1 := by
  induction m with
  | nil =>
    have : ¬ k = k1 := fun h => hne h.symm
    simp [mapSet, mapGet, this]
  | cons e rest ih =>
    obtain ⟨k0, v0⟩ := e
    by_cases hk : k0 = k
    · subst hk
      have : ¬ k0 = k1 := fun h => hne h.symm
      simp [mapSet, mapGet, this]
    · by_cases hk1 : k0 = k1
      · subst hk1
        simp only [mapSet, hk, if_false, mapGet, if_true]
      · simp only [mapSet, hk, if_false, mapGet, hk1, ih]

theorem keys_mapSet {β : Type} (m : List (String × β)) (k : String) (v : β) :
    keys (mapSet m k v) = if k ∈ keys m then keys m else keys m ++ [k] := by
  induction m with
  | nil => simp [mapSet, keys]
  | cons e rest ih =>
    obtain ⟨k0, v0⟩ := e
    by_cases hk : k0 = k
    · subst hk
      simp [mapSet, keys]
    · have hk2 : ¬ k = k0 := fun h => hk h.symm
      simp only [keys] at ih
      simp only [mapSet, hk, if_false, keys, List.map_cons, List.mem_cons, hk2, false_or, ih]
      split <;> simp

theorem nodup_keys_mapSet {β : Type} (m : List (String × β)) (k : String) (v : β)
    (h : (keys m).Nodup) : (keys (mapSet m k v)).Nodup := by
  rw [keys_mapSet]
  split
  · exact h
  · rename_i hk
    exact List.Nodup.append h (List.nodup_singleton k) (by simpa using hk)

theorem sum_totals_mapSet (m : List (String × requirement)) (k : String) (v : requirement) :
    (totals (mapSet m k v)).sum
      = (totals m).sum - ((mapGet m k).getD ⟨0, 0⟩).total_wanted + v.total_wanted := by
  induction m with
  | nil => simp [mapSet, mapGet, totals]
  | cons e rest ih =>
    obtain ⟨k0, v0⟩ := e
    by_cases hk : k0 = k
    · simp only [mapSet, mapGet, hk, if_true, totals, List.map_cons, List.sum_cons,
        Option.getD_some]
      ring
    · simp only [totals] at ih
      simp only [mapSet, mapGet, hk, if_false, totals, List.map_cons, List.sum_cons, ih]
      ring

/-! ## The purge loop -/

theorem purge_foldl (oldest : Int) (l : List (String × requirement)) :
    ∀ acc : lbGroup × List String,
      l.foldl (purgeStep oldest) acc
        = ({ acc.1 with
              total_wanted := subtractAll acc.1.total_wanted (purged oldest l),
              requirements :=
                acc.1.requirements.filter (fun e => decide (e.1 ∉ keys (purged oldest l))) },
           acc.2 ++ keys (purged oldest l)) := by
  induction l with
  | nil =>
    intro acc
    simp [purged, keys, subtractAll]
  | cons e rest ih =>
    intro acc
    rw [List.foldl_cons, ih]
    by_cases he : e.2.ts < oldest
    · have hp : purged oldest (e :: rest) = e :: purged oldest rest := by
        simp [purged, he]
      rw [hp]
      simp only [purgeStep, he, if_true, mapDelete, List.filter_filter, keys, List.map_cons,
        List.mem_cons, subtractAll, List.foldl_cons, List.append_assoc, List.singleton_append]
      congr 2
      apply List.filter_congr
      intro x _
      simp only [ne_eq, decide_not, Bool.and_eq_true, Bool.not_eq_true', decide_eq_false_iff_not,
        not_or, decide_eq_true_eq, List.mem_map, not_exists, not_and, Bool.decide_and]
      exact Bool.and_comm _ _
    · have hp : purged oldest (e :: rest) = purged oldest rest := by
        simp [purged, he]
      rw [hp]
      simp only [purgeStep, he, if_false]

theorem subtractAll_eq (l : List (String × requirement)) :
    ∀ t : Int, -2 ^ 63 ≤ t → t < 2 ^ 63 → subtractAll t l = wrap64 (t - (totals l).sum) := by
  induction l with
  | nil =>
    intro t h1 h2
    simp only [subtractAll, List.foldl_nil, totals, List.map_nil, List.sum_nil, sub_zero]
    exact (wrap64_of_range h1 h2).symm
  | cons e rest ih =>
    intro t _ _
    have hr := wrap64_range (t - e.2.total_wanted)
    have := ih (wrap64 (t - e.2.total_wanted)) hr.1 hr.2
    simp only [subtractAll, List.foldl_cons] at this ⊢
    rw [this, wrap64_sub_left]
    simp only [totals, List.map_cons, List.sum_cons]
    congr 1
    ring

theorem sum_totals_split (oldest : Int) (l : List (String × requirement)) :
    (totals l).sum = (totals (purged oldest l)).sum + (totals (retained oldest l)).sum := by
  induction l with
  | nil => simp [totals, purged, retained]
  | cons e rest ih =>
    simp only [totals, purged, retained] at ih ⊢
    by_cases he : e.2.ts < oldest
    · have he2 : ¬ oldest ≤ e.2.ts := by omega
      simp only [List.filter_cons, he, he2, decide_True, decide_False, if_true,
        List.map_cons, List.sum_cons, ih]
      simp
      ring
    · have he2 : oldest ≤ e.2.ts := by omega
      simp only [List.filter_cons, he, he2, decide_True, decide_False, if_true,
        List.map_cons, List.sum_cons, ih]
      simp
      ring

theorem filter_keys_purged (oldest : Int) (l : List (String × requirement))
    (hnd : (keys l).Nodup) :
    l.filter (fun e => decide (e.1 ∉ keys (purged oldest l))) = retained oldest l := by
  unfold retained
  apply List.filter_congr
  intro x hx
  have hinj := List.inj_on_of_nodup_map hnd
  simp only [keys, purged, List.mem_map, List.mem_filter, decide_eq_true_eq, not_exists,
    not_and, decide_eq_decide]
  constructor
  · intro h
    by_contra hlt
    exact h x ⟨hx, by omega⟩ rfl
  · rintro h y ⟨hy, hylt⟩ hxy
    have := hinj hy hx hxy
    subst this
    omega

theorem Purge_eq (s : lbGroup) (oldest : Int) (hnd : (keys s.requirements).Nodup) :
    Purge s oldest
      = ({ s with
            total_wanted := subtractAll s.total_wanted (purged oldest s.requirements),
            requirements := retained oldest s.requirements },
         keys (purged oldest s.requirements),
         subtractAll s.total_wanted (purged oldest s.requirements)) := by
  simp only [Purge, purge_foldl, filter_keys_purged oldest _ hnd, List.nil_append]

/-! ## Requirement table: invariant and purge -/

theorem Purge_total (s : lbGroup) (oldest : Int) (hnd : (keys s.requirements).Nodup)
    (htw : s.total_wanted = wrap64 (totals s.requirements).sum) :
    (Purge s oldest).1.total_wanted
      = wrap64 (totals (retained oldest s.requirements)).sum := by
  rw [Purge_eq _ _ hnd]
  have hr := wrap64_range (totals s.requirements).sum
  rw [← htw] at hr
  simp only
  rw [subtractAll_eq _ _ hr.1 hr.2, htw, wrap64_sub_left]
  congr 1
  have := sum_totals_split oldest s.requirements
  omega

theorem twoReports_eq :
    twoReports =
      { id := "G", total_wanted := 1500,
        requirements := [("lb1", ⟨10, 600⟩), ("lb2", ⟨20, 900⟩)],
        current_capacity := 0, target_capacity := 0, runners := [], active_runners := [],
        draining_runners := [], dead_runners := [] } := rfl

/-- C1 at a failing run: on a controller made by `newLBGroup`, `lb1` reports
600 and then `lb2` reports 900.  The first call records 600 and blocks in its
send on the nil `controlStream`, with `cap_mx` held; the second call blocks in
`cap_mx.Lock()` and records nothing, so `total_wanted` stays 600 and the table
has no entry for `lb2`, whether or not the control loop is waiting to
receive. -/
theorem second_report_never_recorded :
    (∀ ready : Bool,
      UpdateRequirements ready (newLBGroupState "G") "lb1" 600 10
        = Outcome.blocked
            { g := { id := "G", total_wanted := 600, requirements := [("lb1", ⟨10, 600⟩)],
                     current_capacity := 0, target_capacity := 0, runners := [],
                     active_runners := [], draining_runners := [], dead_runners := [] },
              cap_mx := true, controlStream := none })
    ∧ (∀ ready ready2 : Bool,
        UpdateRequirements ready2
            (UpdateRequirements ready (newLBGroupState "G") "lb1" 600 10).state "lb2" 900 20
          = Outcome.blocked (UpdateRequirements ready (newLBGroupState "G") "lb1" 600 10).state)
    ∧ (∀ ready ready2 : Bool,
        (UpdateRequirements ready2
            (UpdateRequirements ready (newLBGroupState "G") "lb1" 600 10).state
            "lb2" 900 20).state.g.total_wanted = 600)
    ∧ (∀ ready ready2 : Bool,
        mapGet (UpdateRequirements ready2
            (UpdateRequirements ready (newLBGroupState "G") "lb1" 600 10).state
            "lb2" 900 20).state.g.requirements "lb2" = none)
    ∧ (600 : Int) ≠ 600 + 900 := by
  refine ⟨by decide, by decide, by decide, by decide, by decide⟩

/-- C2 (purge): on a requirements map (one entry per LB id) whose total is an
`int64`, `Purge(oldest, cb)` keeps exactly the entries with timestamp at or
after `oldest`, unchanged and in place, removes those strictly before, invokes
`cb` once for each removed LB id and for no other, and returns the new
`total_wanted`, which is the old one minus the removed totals in `int64`
arithmetic. -/
theorem purge_removes_stale (s : lbGroup) (oldest : Int)
    (hmap : (s.requirements.map Prod.fst).Nodup)
    (hlo : -2 ^ 63 ≤ s.total_wanted) (hhi : s.total_wanted < 2 ^ 63) :
    (Purge s oldest).1.requirements
        = s.requirements.filter (fun e => decide (oldest ≤ e.2.ts))
    ∧ (∀ lb : String, lb ∈ (Purge s oldest).1.requirements.map Prod.fst ↔
        ∃ r, (lb, r) ∈ s.requirements ∧ ¬ r.ts < oldest)
    ∧ (Purge s oldest).2.1
        = (s.requirements.filter (fun e => decide (e.2.ts < oldest))).map Prod.fst
    ∧ (Purge s oldest).2.1.Nodup
    ∧ (Purge s oldest).2.2 = (Purge s oldest).1.total_wanted
    ∧ (Purge s oldest).2.2
        = wrap64 (s.total_wanted
            - ((s.requirements.filter (fun e => decide (e.2.ts < oldest))).map
                (fun e => e.2.total_wanted)).sum) := by
  have hnd : (keys s.requirements).Nodup := hmap
  rw [Purge_eq s oldest hnd]
  refine ⟨rfl, ?_, rfl, ?_, rfl, ?_⟩
  · intro lb
    simp only [retained, List.mem_map, List.mem_filter, decide_eq_true_eq, Prod.exists,
      exists_and_right, exists_eq_right, not_lt]
  · exact List.Nodup.sublist (List.Sublist.map _ (List.filter_sublist _)) hnd
  · exact subtractAll_eq _ _ hlo hhi

/-- C2 at the group with the two reports, purged with threshold 15: the
report of time 10 goes, the report of time 20 stays, 900 is returned. -/
theorem purge_removes_stale_witness :
    (Purge twoReports 15).1.requirements = [("lb2", ⟨20, 900⟩)]
    ∧ (Purge twoReports 15).2.1 = ["lb1"]
    ∧ (Purge twoReports 15).2.2 = 900 := by
  have h := purge_removes_stale twoReports 15
    (by rw [twoReports_eq]; decide) (by rw [twoReports_eq]; decide)
    (by rw [twoReports_eq]; decide)
  refine ⟨?_, ?_, ?_⟩
  · rw [h.1]; decide
  · rw [h.2.2.1]; decide
  · rw [h.2.2.2.2.2]; decide

/-! ## Ingress -/

/-- On a free lock `LBGroup` returns, and what it returns and the registry it
leaves are those of the lock-free reading `LBGroup`; the lock is left free when
the group existed and write-locked when it was created. -/
theorem LBGroupSync_free (m : capacityManager) (lbgid : String) :
    LBGroupSync RWMutex.free m lbgid
      = some (if (m.lbg lbgid).isSome then RWMutex.free else { readers := 0, writer := true },
              (LBGroup m lbgid).1, (LBGroup m lbgid).2) := by
  unfold LBGroupSync LBGroup
  cases h : m.lbg lbgid <;>
    simp [RWMutex.RLock, RWMutex.RUnlock, RWMutex.Lock, RWMutex.free, h]

theorem mapSet_mapSet {β : Type} (m : List (String × β)) (k : String) (v w : β) :
    mapSet (mapSet m k v) k w = mapSet m k w := by
  induction m with
  | nil => simp [mapSet]
  | cons e rest ih =>
    obtain ⟨k0, v0⟩ := e
    by_cases hk : k0 = k
    · simp [mapSet, hk]
    · simp [mapSet, hk, ih]

theorem UpdateRequirementsTable_twice (s : lbGroup) (lb : String) (v w now now2 : Int) :
    (UpdateRequirementsTable (UpdateRequirementsTable s lb v now).1 lb w now2).1
      = (UpdateRequirementsTable s lb w now2).1 := by
  simp only [UpdateRequirementsTable, mapGet_mapSet_same, Option.getD_some, mapSet_mapSet]
  congr 1
  unfold wrap64
  omega

/-- On the channel that `newLBGroup` leaves, `UpdateRequirements` never
returns: it blocks on `cap_mx` when that is held, and otherwise in its send,
after the table update and with `cap_mx` held. -/
theorem UpdateRequirements_nil (ready : Bool) (g : lbGroup) (held : Bool) (lb : String)
    (total now : Int) :
    UpdateRequirements ready
        { g := g, cap_mx := held, controlStream := newLBGroup_controlStream } lb total now
      = Outcome.blocked
          { g := if held then g else (UpdateRequirementsTable g lb total now).1,
            cap_mx := true, controlStream := newLBGroup_controlStream } := by
  cases held <;> rfl

theorem LBGroupSync_some {mx mx2 : RWMutex} {m m2 : capacityManager} {gid : String}
    {g : lbGroup} (h : LBGroupSync mx m gid = some (mx2, m2, g)) :
    m2.lbg gid = some g ∧ (∀ g0, m.lbg gid = some g0 → m2 = m ∧ g = g0) := by
  unfold LBGroupSync at h
  cases hr : mx.RLock with
  | none => rw [hr] at h; simp at h
  | some mx1 =>
    rw [hr] at h
    cases hm : m.lbg gid with
    | some g1 =>
      simp only [hm, Option.some.injEq, Prod.mk.injEq] at h
      obtain ⟨_, h2, h3⟩ := h
      subst h2 h3
      exact ⟨hm, fun g0 hg0 => ⟨rfl, by simpa using hg0⟩⟩
    | none =>
      simp only [hm, Option.map_eq_some'] at h
      obtain ⟨mx3, _, h2⟩ := h
      simp only [Prod.mk.injEq] at h2
      obtain ⟨_, h3, h4⟩ := h2
      subst h3 h4
      exact ⟨by simp, fun g0 hg0 => by simp at hg0⟩

/-- One step of `Merge` never returns; it leaves the named controller with
`cap_mx` held, whether it blocked in `LBGroup`, on `cap_mx` or in the send. -/
theorem mergeStep_eq (ready : Bool) (lbid : String) (now : Int) (st : registryState)
    (sn : CapacitySnapshot) :
    mergeStep ready lbid now st sn
      = match LBGroupSync st.mx st.m sn.GroupId with
        | none => Outcome.blocked st
        | some (mx2, m2, g) =>
          Outcome.blocked (st.put mx2 m2 sn.GroupId
            { g := if (if (st.m.lbg sn.GroupId).isSome then st.cap_mx sn.GroupId else false)
                   then g else (UpdateRequirementsTable g lbid (wrap64 sn.MemMbTotal) now).1,
              cap_mx := true, controlStream := newLBGroup_controlStream }) := by
  unfold mergeStep
  cases h : LBGroupSync st.mx st.m sn.GroupId with
  | none => rfl
  | some r =>
    obtain ⟨mx2, m2, g⟩ := r
    simp only [UpdateRequirements_nil]

theorem Merge_cons (ready : Bool) (st : registryState) (now : Int) (lb : String)
    (sn : CapacitySnapshot) (rest : List CapacitySnapshot) :
    Merge ready st now ⟨lb, sn :: rest⟩ = mergeStep ready lb now st sn := by
  simp only [Merge, mergeLoop]
  rw [mergeStep_eq]
  cases h : LBGroupSync st.mx st.m sn.GroupId with
  | none => rfl
  | some r => rfl

theorem mergeStep_twice (ready ready2 : Bool) (lbid : String) (now now2 : Int)
    (st : registryState) (sn : CapacitySnapshot) (k : String) :
    (mergeStep ready2 lbid now2 (mergeStep ready lbid now st sn).state sn).state.m.lbg k
      = (mergeStep ready lbid now st sn).state.m.lbg k := by
  rw [mergeStep_eq ready lbid now st sn]
  cases h : LBGroupSync st.mx st.m sn.GroupId with
  | none =>
    simp only [Outcome.state]
    rw [mergeStep_eq, h]
  | some r =>
    obtain ⟨mx2, m2, g⟩ := r
    simp only [Outcome.state]
    rw [mergeStep_eq]
    cases h2 : LBGroupSync
        (st.put mx2 m2 sn.GroupId
          { g := if (if (st.m.lbg sn.GroupId).isSome then st.cap_mx sn.GroupId else false)
                 then g else (UpdateRequirementsTable g lbid (wrap64 sn.MemMbTotal) now).1,
            cap_mx := true, controlStream := newLBGroup_controlStream }).mx
        (st.put mx2 m2 sn.GroupId
          { g := if (if (st.m.lbg sn.GroupId).isSome then st.cap_mx sn.GroupId else false)
                 then g else (UpdateRequirementsTable g lbid (wrap64 sn.MemMbTotal) now).1,
            cap_mx := true, controlStream := newLBGroup_controlStream }).m
        sn.GroupId with
    | none => rfl
    | some r2 =>
      obtain ⟨mx3, m3, g3⟩ := r2
      have hs := (LBGroupSync_some h2).2
        (if (if (st.m.lbg sn.GroupId).isSome then st.cap_mx sn.GroupId else false)
         then g else (UpdateRequirementsTable g lbid (wrap64 sn.MemMbTotal) now).1)
        (by simp [registryState.put])
      obtain ⟨hm3, hg3⟩ := hs
      subst hm3 hg3
      simp only [Outcome.state, registryState.put, Option.isSome_some, if_true]
      by_cases hk : k = sn.GroupId
      · simp [hk]
      · simp [hk]

theorem Merge_twice (ready ready2 : Bool) (st : registryState) (now now2 : Int)
    (list : CapacitySnapshotList) (k : String) :
    (Merge ready2 (Merge ready st now list).state now2 list).state.m.lbg k
      = (Merge ready st now list).state.m.lbg k := by
  obtain ⟨lb, snaps⟩ := list
  cases snaps with
  | nil => rfl
  | cons sn rest =>
    rw [Merge_cons, Merge_cons]
    exact mergeStep_twice ready ready2 lb now now2 st sn k

/-- C3 (idempotent ingress): for every registry state and every batch,
applying `Merge` with the batch twice (the second delivery made after the
first has returned or blocked) leaves every group exactly as applying it once
does, so with the same `total_wanted` and the same recorded total for the
batch's LB; and for every group state, `UpdateRequirements(lb, total)` applied
twice gives the same `total_wanted` and the same recorded total as applied
once. -/
theorem idempotent_ingress (ready ready2 : Bool) (st : registryState) (now now2 : Int)
    (list : CapacitySnapshotList) (g : String) :
    (Merge ready2 (Merge ready st now list).state now2 list).state.m.lbg g
        = (Merge ready st now list).state.m.lbg g
    ∧ ((Merge ready2 (Merge ready st now list).state now2 list).state.m.lbg g).map
          (fun grp => grp.total_wanted)
        = ((Merge ready st now list).state.m.lbg g).map (fun grp => grp.total_wanted)
    ∧ ((Merge ready2 (Merge ready st now list).state now2 list).state.m.lbg g).map
          (fun grp => (mapGet grp.requirements list.LbId).map (fun r => r.total_wanted))
        = ((Merge ready st now list).state.m.lbg g).map
          (fun grp => (mapGet grp.requirements list.LbId).map (fun r => r.total_wanted))
    ∧ (∀ (gs : lbGroupState) (lb : String) (total t1 t2 : Int),
        (UpdateRequirements ready2 (UpdateRequirements ready gs lb total t1).state
            lb total t2).state.g.total_wanted
          = (UpdateRequirements ready gs lb total t1).state.g.total_wanted
        ∧ (mapGet (UpdateRequirements ready2 (UpdateRequirements ready gs lb total t1).state
            lb total t2).state.g.requirements lb).map (fun r => r.total_wanted)
          = (mapGet (UpdateRequirements ready gs lb total t1).state.g.requirements lb).map
              (fun r => r.total_wanted)) := by
  have h := Merge_twice ready ready2 st now now2 list g
  refine ⟨h, by rw [h], by rw [h], ?_⟩
  intro gs lb total t1 t2
  obtain ⟨g0, held, ch⟩ := gs
  cases held with
  | true => exact ⟨rfl, rfl⟩
  | false =>
    simp only [UpdateRequirements, Bool.false_eq_true, if_false]
    cases chanSend ch ready (UpdateRequirementsTable g0 lb total t1).2 with
    | none => exact ⟨rfl, rfl⟩
    | some ch2 =>
      simp only [Outcome.state, Bool.false_eq_true, if_false]
      cases chanSend ch2 ready2
          (UpdateRequirementsTable (UpdateRequirementsTable g0 lb total t1).1 lb total t2).2 with
      | none =>
        simp only [Outcome.state, UpdateRequirementsTable_twice]
        simp [UpdateRequirementsTable, mapGet_mapSet_same]
      | some ch3 =>
        simp only [Outcome.state, UpdateRequirementsTable_twice]
        simp [UpdateRequirementsTable, mapGet_mapSet_same]

/-- C4, as stated, fails: on a new registry a batch with the one snapshot
`(G, 1)` leaves the total 1 recorded for `lb1` in group `G`, not
`1 * 2^20`. -/
theorem merge_records_wire_figure_unconverted :
    ((Merge true newRegistryState 0 ⟨"lb1", [⟨"G", 1⟩]⟩).state.m.lbg "G").bind
        (fun g => (mapGet g.requirements "lb1").map (fun r => r.total_wanted)) = some 1
    ∧ ((Merge true newRegistryState 0 ⟨"lb1", [⟨"G", 1⟩]⟩).state.m.lbg "G").bind
        (fun g => (mapGet g.requirements "lb1").map (fun r => r.total_wanted))
        ≠ some (1 * 2 ^ 20) := by
  decide

/-- C4, amended: when the registry lock is free and the `cap_mx` of the group
named by the first snapshot of the batch is free (or the group does not exist
yet), `Merge` records for that snapshot `(group_id, mem_mb)` a requirement for
the batch's LB in the group `group_id`, creating the group on demand, and the
recorded total is the wire figure converted to `int64` and nothing else, so the
figure itself whenever it is below `2^63`. -/
theorem merge_records_first_snapshot (ready : Bool) (st : registryState) (now : Int)
    (lb : String) (sn : CapacitySnapshot) (rest : List CapacitySnapshot)
    (hmx : st.mx = RWMutex.free)
    (hfree : (st.m.lbg sn.GroupId).isSome = true → st.cap_mx sn.GroupId = false) :
    ∃ grp, (Merge ready st now ⟨lb, sn :: rest⟩).state.m.lbg sn.GroupId = some grp
      ∧ grp.id = ((st.m.lbg sn.GroupId).getD (newLBGroup sn.GroupId)).id
      ∧ mapGet grp.requirements lb = some ⟨now, wrap64 sn.MemMbTotal⟩
      ∧ (sn.MemMbTotal < 2 ^ 63 → wrap64 sn.MemMbTotal = sn.MemMbTotal) := by
  have hheld : (if (st.m.lbg sn.GroupId).isSome then st.cap_mx sn.GroupId else false)
      = false := by
    by_cases hs : (st.m.lbg sn.GroupId).isSome = true
    · rw [if_pos hs]; exact hfree hs
    · rw [if_neg hs]
  rw [Merge_cons, mergeStep_eq, hmx, LBGroupSync_free, hheld]
  refine ⟨(UpdateRequirementsTable (LBGroup st.m sn.GroupId).2 lb (wrap64 sn.MemMbTotal) now).1,
    by simp [Outcome.state, registryState.put], ?_, ?_, ?_⟩
  · cases hm : st.m.lbg sn.GroupId <;> simp [LBGroup, hm, UpdateRequirementsTable, newLBGroup]
  · simp [UpdateRequirementsTable, mapGet_mapSet_same]
  · intro hlt
    apply wrap64_of_range
    · have : (0 : Int) ≤ (sn.MemMbTotal : Int) := Int.ofNat_nonneg _
      omega
    · exact_mod_cast hlt

/-- C4 (amended) at a new registry and the batch `(G, 1), (H, 5), (G, 3)` of
`lb1` at time 7: the figure 1 of the first snapshot is recorded in group
`G`. -/
theorem merge_records_first_snapshot_witness :
    ∃ grp, (Merge true newRegistryState 7
        ⟨"lb1", [⟨"G", 1⟩, ⟨"H", 5⟩, ⟨"G", 3⟩]⟩).state.m.lbg "G" = some grp
      ∧ grp.id = "G"
      ∧ mapGet grp.requirements "lb1" = some ⟨7, 1⟩ := by
  obtain ⟨grp, h1, h2, h3, _⟩ :=
    merge_records_first_snapshot true newRegistryState 7 "lb1" ⟨"G", 1⟩ [⟨"H", 5⟩, ⟨"G", 3⟩]
      rfl (by decide)
  exact ⟨grp, h1, h2, by rw [h3]; decide⟩

/-! ## The loops of `target` -/

theorem reactivate_stop (tgt : Int) (s : lbGroup) (h : ¬ tgt > s.target_capacity) (fuel : Nat) :
    reactivate tgt fuel s = s := by
  cases fuel with
  | zero => rfl
  | succ n => simp [reactivate, h]

theorem reactivate_frame (tgt : Int) (fuel : Nat) :
    ∀ s : lbGroup,
      (reactivate tgt fuel s).id = s.id
      ∧ (reactivate tgt fuel s).total_wanted = s.total_wanted
      ∧ (reactivate tgt fuel s).requirements = s.requirements
      ∧ (reactivate tgt fuel s).runners = s.runners
      ∧ (reactivate tgt fuel s).dead_runners = s.dead_runners
      ∧ s.active_runners <+: (reactivate tgt fuel s).active_runners
      ∧ (reactivate tgt fuel s).draining_runners <+: s.draining_runners := by
  induction fuel with
  | zero =>
    intro s
    exact ⟨rfl, rfl, rfl, rfl, rfl, List.prefix_refl _, List.prefix_refl _⟩
  | succ n ih =>
    intro s
    unfold reactivate
    split
    · split
      · exact ⟨rfl, rfl, rfl, rfl, rfl, List.prefix_refl _, List.prefix_refl _⟩
      · rename_i r hr
        obtain ⟨h1, h2, h3, h4, h5, h6, h7⟩ := ih
          { s with
            draining_runners := s.draining_runners.dropLast,
            active_runners := s.active_runners ++ [{ r with status := RUNNER_ACTIVE }],
            current_capacity := wrap64 (s.current_capacity + r.capacity),
            target_capacity := wrap64 (s.target_capacity + r.capacity) }
        refine ⟨h1, h2, h3, h4, h5, ?_, ?_⟩
        · exact List.IsPrefix.trans (List.prefix_append _ _) h6
        · exact List.IsPrefix.trans h7 (List.dropLast_prefix _)
    · exact ⟨rfl, rfl, rfl, rfl, rfl, List.prefix_refl _, List.prefix_refl _⟩

/-- The reactivation loop never runs out of fuel: with one unit of fuel per
draining runner it ends with its loop condition false. -/
theorem reactivate_exit (tgt : Int) (fuel : Nat) :
    ∀ s : lbGroup, s.draining_runners.length ≤ fuel →
      ¬ (tgt > (reactivate tgt fuel s).target_capacity
          ∧ (reactivate tgt fuel s).draining_runners.length > 0) := by
  induction fuel with
  | zero =>
    intro s hs
    simp only [reactivate]
    omega
  | succ n ih =>
    intro s hs
    unfold reactivate
    split
    · split
      · rename_i hnone
        rw [List.getLast?_eq_none_iff] at hnone
        simp [hnone]
      · apply ih
        simp only [List.length_dropLast]
        omega
    · assumption

/-- The drain loop never runs out of fuel: with one unit of fuel per active
runner it ends with its loop condition false. -/
theorem drain_exit (C now tgt : Int) (fuel : Nat) :
    ∀ s : lbGroup, s.active_runners.length ≤ fuel →
      ¬ (tgt < wrap64 ((drain C now tgt fuel s).current_capacity - C)
          ∧ (drain C now tgt fuel s).active_runners.length > 0) := by
  induction fuel with
  | zero =>
    intro s hs
    simp only [drain]
    omega
  | succ n ih =>
    intro s hs
    unfold drain
    split
    · split
      · rename_i hnone
        rw [List.getLast?_eq_none_iff] at hnone
        simp [hnone]
      · apply ih
        simp only [List.length_dropLast]
        omega
    · assumption

/-! ## Freshness gate and provisioning -/

theorem log2Fuel_spec (fuel : Nat) :
    ∀ n : Nat, 0 < n → n < 2 ^ fuel →
      2 ^ log2Fuel fuel n ≤ n ∧ n < 2 ^ (log2Fuel fuel n + 1) := by
  induction fuel with
  | zero => intro n h0 h1; simp at h1; omega
  | succ k ih =>
    intro n h0 h1
    unfold log2Fuel
    split
    · simp; omega
    · rename_i h2
      have h3 : n / 2 < 2 ^ k := by
        rw [Nat.div_lt_iff_lt_mul (by decide)]
        rw [pow_succ] at h1
        exact h1
      obtain ⟨i1, i2⟩ := ih (n / 2) (by omega) h3
      constructor
      · rw [pow_succ]
        have := Nat.div_mul_le_self n 2
        omega
      · rw [pow_succ]
        have := Nat.div_add_mod n 2
        have := Nat.mod_lt n (show 0 < 2 by decide)
        omega

theorem ilog2_spec (n : Nat) (h0 : 0 < n) (h1 : n < 2 ^ 128) :
    2 ^ ilog2 n ≤ n ∧ n < 2 ^ (ilog2 n + 1) :=
  log2Fuel_spec 128 n h0 h1

theorem roundHalfEven_scale (k x y : Nat) (hk : 0 < k) :
    roundHalfEven (k * x) (k * y) = roundHalfEven x y := by
  unfold roundHalfEven
  rw [Nat.mul_mod_mul_left, Nat.mul_div_mul_left _ _ hk]
  have e1 : (k * y < 2 * (k * (x % y))) ↔ (y < 2 * (x % y)) := by
    rw [show 2 * (k * (x % y)) = k * (2 * (x % y)) by ring]
    exact Nat.mul_lt_mul_left hk
  have e2 : (2 * (k * (x % y)) = k * y) ↔ (2 * (x % y) = y) := by
    rw [show 2 * (k * (x % y)) = k * (2 * (x % y)) by ring]
    exact Nat.mul_right_inj (by omega)
  simp only [e1, e2]

theorem roundHalfEven_le (num den N : Nat) (hden : 0 < den) (h : num ≤ N * den) :
    roundHalfEven num den ≤ N := by
  unfold roundHalfEven
  have hq : num / den ≤ N := Nat.div_le_of_le_mul (by rw [Nat.mul_comm]; exact h)
  have hdm := Nat.div_add_mod num den
  rcases Nat.lt_or_eq_of_le hq with hlt | heq
  · split <;> omega
  · have hr : num % den = 0 := by
      rw [heq, Nat.mul_comm] at hdm
      omega
    have hn : ¬ (den < 2 * (num % den) ∨ 2 * (num % den) = den ∧ num / den % 2 = 1) := by
      rw [hr]
      omega
    rw [if_neg hn]
    exact hq

theorem lt_roundHalfEven (num den K : Nat) (hden : 0 < den)
    (h : (2 * K + 1) * den < 2 * num) : K < roundHalfEven num den := by
  unfold roundHalfEven
  have hdm := Nat.div_add_mod num den
  have hml := Nat.mod_lt num hden
  have hq : K ≤ num / den := by
    rw [Nat.le_div_iff_mul_le hden]
    nlinarith
  rcases Nat.lt_or_eq_of_le hq with hlt | heq
  · split <;> omega
  · have hr : den < 2 * (num % den) := by
      rw [← heq] at hdm
      nlinarith
    simp [hr]
    omega

theorem float64QuotScale_spec (a c : Nat) (ha : 0 < a) (ha2 : a < 2 ^ 128) (hc : 0 < c)
    (hc2 : c < 2 ^ 128) :
    2 ^ 52 * (c * 2 ^ ilog2 a) ≤ a * 2 ^ float64QuotScale a c
    ∧ 52 + ilog2 c ≤ float64QuotScale a c := by
  obtain ⟨a1, _⟩ := ilog2_spec a ha ha2
  obtain ⟨_, c2⟩ := ilog2_spec c hc hc2
  unfold float64QuotScale
  split
  · rename_i hcond
    refine ⟨?_, le_refl _⟩
    rw [pow_add]
    calc 2 ^ 52 * (c * 2 ^ ilog2 a) ≤ 2 ^ 52 * (a * 2 ^ ilog2 c) := Nat.mul_le_mul_left _ hcond
      _ = a * (2 ^ 52 * 2 ^ ilog2 c) := by ring
  · refine ⟨?_, by omega⟩
    rw [pow_add]
    rw [pow_succ] at c2
    calc 2 ^ 52 * (c * 2 ^ ilog2 a) ≤ 2 ^ 52 * ((2 ^ ilog2 c * 2) * a) := by
          apply Nat.mul_le_mul_left
          exact Nat.mul_le_mul (le_of_lt c2) a1
      _ = a * (2 ^ 53 * 2 ^ ilog2 c) := by ring

theorem float64QuotCeil_eq (a c n : Nat) (ha : 0 < a) (ha2 : a < 2 ^ 53) (hc : 0 < c)
    (hc2 : c < 2 ^ 128) (h1 : a ≤ n * c) (h2 : n * c < a + c) :
    float64QuotCeil a c = n := by
  have ha3 : a < 2 ^ 128 := lt_of_lt_of_le ha2 (Nat.pow_le_pow_right (by decide) (by decide))
  obtain ⟨a1, _⟩ := ilog2_spec a ha ha3
  obtain ⟨hP, hS⟩ := float64QuotScale_spec a c ha ha3 hc hc2
  have hla : ilog2 a ≤ 52 := by
    by_contra hgt
    have : 2 ^ 53 ≤ 2 ^ ilog2 a := Nat.pow_le_pow_right (by decide) (by omega)
    omega
  obtain ⟨T, hT⟩ := Nat.exists_eq_add_of_le (show ilog2 a ≤ float64QuotScale a c by omega)
  unfold float64QuotCeil float64QuotMant
  rw [hT] at hP ⊢
  rw [pow_add] at hP ⊢
  have hL : 0 < 2 ^ ilog2 a := Nat.pow_pos (by decide)
  have ht : 0 < 2 ^ T := Nat.pow_pos (by decide)
  generalize 2 ^ ilog2 a = L at hP hL ⊢
  generalize 2 ^ T = t at hP ht ⊢
  have hP2 : 2 ^ 52 * c ≤ a * t := by
    have : L * (2 ^ 52 * c) ≤ L * (a * t) := by
      calc L * (2 ^ 52 * c) = 2 ^ 52 * (c * L) := by ring
        _ ≤ a * (L * t) := hP
        _ = L * (a * t) := by ring
    exact Nat.le_of_mul_le_mul_left this hL
  have h2t : c < 2 * t := by
    by_contra hge
    have hge2 : 2 * t ≤ c := by omega
    have : a * t < 2 ^ 53 * t := Nat.mul_lt_mul_of_pos_right ha2 ht
    have : 2 ^ 52 * (2 * t) ≤ 2 ^ 52 * c := Nat.mul_le_mul_left _ hge2
    have e : (2 : Nat) ^ 52 * (2 * t) = 2 ^ 53 * t := by ring
    omega
  have hn : 1 ≤ n := by
    rcases Nat.eq_zero_or_pos n with h0 | h0
    · rw [h0] at h1; omega
    · exact h0
  have hm : roundHalfEven (a * (L * t)) (c * L) = roundHalfEven (a * t) c := by
    rw [show a * (L * t) = L * (a * t) by ring, show c * L = L * c by ring]
    exact roundHalfEven_scale L _ _ hL
  rw [hm]
  have hup : roundHalfEven (a * t) c ≤ n * t := by
    apply roundHalfEven_le _ _ _ hc
    calc a * t ≤ (n * c) * t := Nat.mul_le_mul_right _ h1
      _ = n * t * c := by ring
  have hlo : (n - 1) * t < roundHalfEven (a * t) c := by
    apply lt_roundHalfEven _ _ _ hc
    obtain ⟨w, hw⟩ : ∃ w, n = w + 1 := ⟨n - 1, by omega⟩
    subst hw
    simp only [Nat.add_sub_cancel]
    have h3 : w * c + 1 ≤ a := by
      have : (w + 1) * c = w * c + c := by ring
      omega
    have h4 : (w * c + 1) * t ≤ a * t := Nat.mul_le_mul_right _ h3
    have e1 : (2 * (w * t) + 1) * c = 2 * (w * c * t) + c := by ring
    have e2 : (w * c + 1) * t = w * c * t + t := by ring
    omega
  generalize roundHalfEven (a * t) c = m at hup hlo
  obtain ⟨w, hw⟩ : ∃ w, n = w + 1 := ⟨n - 1, by omega⟩
  subst hw
  simp only [Nat.add_sub_cancel] at hlo
  have hLt : 0 < L * t := Nat.mul_pos hL ht
  apply Nat.div_eq_of_lt_le
  · have h5 : (w * t + 1) * L ≤ m * L := Nat.mul_le_mul_right _ hlo
    have e1 : (w + 1) * (L * t) = w * t * L + L * t := by ring
    have e2 : (w * t + 1) * L = w * t * L + L := by ring
    omega
  · have h5 : m * L ≤ (w + 1) * t * L := Nat.mul_le_mul_right _ hup
    have e1 : (w + 1 + 1) * (L * t) = (w + 1) * t * L + L * t := by ring
    omega

theorem provisionCount_le (C delta : Int) : provisionCount C delta ≤ LARGEST_REQUEST_AT_ONCE := by
  unfold provisionCount
  split
  · split
    · exact le_refl _
    · decide
  · split
    · decide
    · split
      · exact min_le_right _ _
      · have : (0 : Int) ≤ (float64QuotFloor (float64OfNat delta.natAbs)
            (float64OfNat C.natAbs) : Int) := Int.ofNat_nonneg _
        simp only [LARGEST_REQUEST_AT_ONCE]
        omega

theorem provisionCount_eq_ceil (C delta : Int) (hC : 0 < C) (hC2 : C < 2 ^ 53)
    (hd : 0 < delta) (hd2 : delta < 2 ^ 53) :
    provisionCount C delta = min ⌈(delta : ℚ) / (C : ℚ)⌉ LARGEST_REQUEST_AT_ONCE := by
  have hn0 : 0 < ⌈(delta : ℚ) / (C : ℚ)⌉ := by
    rw [Int.ceil_pos]
    have : (0 : ℚ) < delta := by exact_mod_cast hd
    have : (0 : ℚ) < C := by exact_mod_cast hC
    positivity
  obtain ⟨n, hn⟩ : ∃ n : Nat, ⌈(delta : ℚ) / (C : ℚ)⌉ = (n : Int) :=
    ⟨⌈(delta : ℚ) / (C : ℚ)⌉.toNat, (Int.toNat_of_nonneg hn0.le).symm⟩
  obtain ⟨a, ha⟩ : ∃ a : Nat, delta = (a : Int) := ⟨delta.toNat, (Int.toNat_of_nonneg hd.le).symm⟩
  obtain ⟨c, hc⟩ : ∃ c : Nat, C = (c : Int) := ⟨C.toNat, (Int.toNat_of_nonneg hC.le).symm⟩
  subst ha hc
  have ha0 : 0 < a := by exact_mod_cast hd
  have hc0 : 0 < c := by exact_mod_cast hC
  have ha2 : a < 2 ^ 53 := by exact_mod_cast hd2
  have hc2 : c < 2 ^ 53 := by exact_mod_cast hC2
  have hcq : (0 : ℚ) < (c : ℚ) := by exact_mod_cast hc0
  have hceil := Int.ceil_eq_iff.mp hn
  have h1 : a ≤ n * c := by
    have := hceil.2
    rw [div_le_iff₀ (by exact_mod_cast hcq)] at this
    exact_mod_cast this
  have h2 : n * c < a + c := by
    have := hceil.1
    rw [lt_div_iff₀ (by exact_mod_cast hcq)] at this
    have h3 : ((n : ℚ)) * c < a + c := by
      push_cast at this
      linarith
    exact_mod_cast h3
  have hq := float64QuotCeil_eq a c n ha0 ha2 hc0
    (lt_of_lt_of_le hc2 (Nat.pow_le_pow_right (by decide) (by decide))) h1 h2
  have hfa : float64OfNat a = a := by unfold float64OfNat; rw [if_pos ha2]
  have hfc : float64OfNat c = c := by unfold float64OfNat; rw [if_pos hc2]
  have hcne : ¬ ((c : Int) = 0) := by omega
  have hane : ¬ ((a : Int) = 0) := by omega
  simp only [provisionCount, hcne, hane, if_false, hd, hC, and_self, true_or, if_true,
    Int.natAbs_ofNat, hfa, hfc, hq, hn]

theorem div_le_roundHalfEven (num den : Nat) : num / den ≤ roundHalfEven num den := by
  unfold roundHalfEven
  split <;> omega

theorem roundHalfEven_le_succ (num den : Nat) : roundHalfEven num den ≤ num / den + 1 := by
  unfold roundHalfEven
  split <;> omega

theorem float64OfNat_big (n : Nat) (h1 : 2 ^ 53 ≤ n) (h2 : n < 2 ^ 64) :
    2 ^ 53 ≤ float64OfNat n ∧ float64OfNat n < 2 ^ 128 := by
  have hn : ¬ n < 2 ^ 53 := by omega
  obtain ⟨l1, l2⟩ := ilog2_spec n (by omega)
    (lt_of_lt_of_le h2 (Nat.pow_le_pow_right (by decide) (by decide)))
  have hl : 53 ≤ ilog2 n := by
    by_contra hlt
    have : 2 ^ (ilog2 n + 1) ≤ 2 ^ 53 := Nat.pow_le_pow_right (by decide) (by omega)
    omega
  have hl2 : ilog2 n ≤ 63 := by
    by_contra hgt
    have : 2 ^ 64 ≤ 2 ^ ilog2 n := Nat.pow_le_pow_right (by decide) (by omega)
    omega
  unfold float64OfNat
  rw [if_neg hn]
  have e : 2 ^ ilog2 n = 2 ^ 52 * 2 ^ (ilog2 n - 52) := by
    rw [← pow_add]
    congr 1
    omega
  have h5 : 2 ^ (ilog2 n - 52) ≤ 2 ^ 11 := Nat.pow_le_pow_right (by decide) (by omega)
  have h53 : 2 ^ 53 ≤ 2 ^ ilog2 n := Nat.pow_le_pow_right (by decide) hl
  have hdpos : 0 < 2 ^ (ilog2 n - 52) := Nat.pow_pos (by decide)
  generalize 2 ^ (ilog2 n - 52) = d at e h5 hdpos ⊢
  generalize 2 ^ ilog2 n = L at e l1 h53
  have hq : 2 ^ 52 ≤ n / d := by
    rw [Nat.le_div_iff_mul_le hdpos]
    omega
  constructor
  · have h3 : 2 ^ 52 * d ≤ roundHalfEven n d * d :=
      Nat.mul_le_mul_right _ (le_trans hq (div_le_roundHalfEven n d))
    omega
  · have h3 : roundHalfEven n d * d ≤ (n / d + 1) * d :=
      Nat.mul_le_mul_right _ (roundHalfEven_le_succ n d)
    have h4 : n / d * d ≤ n := Nat.div_mul_le_self n d
    have e2 : (n / d + 1) * d = n / d * d + d := by ring
    omega

theorem float64QuotCeil_ge (a c : Nat) (ha : 2 ^ 53 ≤ a) (ha2 : a < 2 ^ 128) (hc : 0 < c)
    (hc2 : c < 2 ^ 48) : 32 ≤ float64QuotCeil a c := by
  have hc3 : c < 2 ^ 128 := lt_of_lt_of_le hc2 (Nat.pow_le_pow_right (by decide) (by decide))
  obtain ⟨a1, a3⟩ := ilog2_spec a (by omega) ha2
  obtain ⟨c1, _⟩ := ilog2_spec c hc hc3
  obtain ⟨hP, _⟩ := float64QuotScale_spec a c (by omega) ha2 hc hc3
  have hla : 53 ≤ ilog2 a := by
    by_contra hlt
    have : 2 ^ (ilog2 a + 1) ≤ 2 ^ 53 := Nat.pow_le_pow_right (by decide) (by omega)
    omega
  have hlc : ilog2 c ≤ 47 := by
    by_contra hgt
    have : 2 ^ 48 ≤ 2 ^ ilog2 c := Nat.pow_le_pow_right (by decide) (by omega)
    omega
  have hSle : float64QuotScale a c ≤ 100 := by
    unfold float64QuotScale
    split <;> omega
  have hm : 2 ^ 52 ≤ float64QuotMant a c := by
    unfold float64QuotMant
    refine le_trans ?_ (div_le_roundHalfEven _ _)
    rw [Nat.le_div_iff_mul_le (Nat.mul_pos hc (Nat.pow_pos (by decide)))]
    exact hP
  unfold float64QuotCeil
  rw [Nat.le_div_iff_mul_le (Nat.pow_pos (by decide))]
  have hS : 2 ^ float64QuotScale a c ≤ 2 ^ 100 := Nat.pow_le_pow_right (by decide) hSle
  have hL : 2 ^ 53 ≤ 2 ^ ilog2 a := Nat.pow_le_pow_right (by decide) hla
  have hSpos : 0 < 2 ^ float64QuotScale a c := Nat.pow_pos (by decide)
  have key : 2 ^ 52 * 2 ^ 53 ≤ float64QuotMant a c * 2 ^ ilog2 a := Nat.mul_le_mul hm hL
  generalize 2 ^ float64QuotScale a c = t at hS hSpos ⊢
  generalize float64QuotMant a c * 2 ^ ilog2 a = v at key ⊢
  omega

theorem provisionCount_eq_ceil_wide (C delta : Int) (hC : 0 < C) (hC2 : C < 2 ^ 48)
    (hd : 0 < delta) (hd2 : delta < 2 ^ 63) :
    provisionCount C delta = min ⌈(delta : ℚ) / (C : ℚ)⌉ LARGEST_REQUEST_AT_ONCE := by
  by_cases hsmall : delta < 2 ^ 53
  · exact provisionCount_eq_ceil C delta hC (by omega) hd hsmall
  · have hge : (2 : Int) ^ 53 ≤ delta := by omega
    obtain ⟨a, ha⟩ : ∃ a : Nat, delta = (a : Int) := ⟨delta.toNat, (Int.toNat_of_nonneg hd.le).symm⟩
    obtain ⟨c, hc⟩ : ∃ c : Nat, C = (c : Int) := ⟨C.toNat, (Int.toNat_of_nonneg hC.le).symm⟩
    subst ha hc
    have ha1 : 2 ^ 53 ≤ a := by exact_mod_cast hge
    have ha2 : a < 2 ^ 63 := by exact_mod_cast hd2
    have hc0 : 0 < c := by exact_mod_cast hC
    have hc2 : c < 2 ^ 48 := by exact_mod_cast hC2
    obtain ⟨f1, f2⟩ := float64OfNat_big a ha1 (by omega)
    have hfc : float64OfNat c = c := by
      unfold float64OfNat
      rw [if_pos (by omega)]
    have hq := float64QuotCeil_ge (float64OfNat a) c f1 f2 hc0 hc2
    have hcq : (0 : ℚ) < (c : ℚ) := by exact_mod_cast hc0
    have hceil : (20 : Int) ≤ ⌈((a : Int) : ℚ) / ((c : Int) : ℚ)⌉ := by
      have h19 : (19 : Int) < ⌈((a : Int) : ℚ) / ((c : Int) : ℚ)⌉ := by
        rw [Int.lt_ceil]
        rw [lt_div_iff₀ (by exact_mod_cast hcq)]
        have : 19 * c < a := by omega
        exact_mod_cast this
      omega
    have hcne : ¬ ((c : Int) = 0) := by omega
    have hane : ¬ ((a : Int) = 0) := by omega
    simp only [provisionCount, hcne, hane, if_false, hd, hC, and_self, true_or, if_true,
      Int.natAbs_ofNat, hfc]
    have h20 : (20 : Int) ≤ (float64QuotCeil (float64OfNat a) c : Int) := by
      have : 20 ≤ float64QuotCeil (float64OfNat a) c := by omega
      exact_mod_cast this
    simp only [LARGEST_REQUEST_AT_ONCE] at *
    rw [min_eq_right h20, min_eq_right hceil]

/-- Beyond that range the count of the code is not the exact one: with
`2^62` per runner and a shortfall of `2^62 + 1` the quotient rounds to 1, and a
shortfall that overflows `int64` to `-2^63 + 511` gives the count `-2^54` for
512 per runner. -/
theorem provisionCount_rounds :
    provisionCount (2 ^ 62) (2 ^ 62 + 1) = 1
    ∧ provisionCount 512 (-2 ^ 63 + 511) = -18014398509481984 := by
  decide

/-- C5 (freshness gate): a decision older than `VALID_REQUEST_LIFETIME`
(500 ms) returns the group state unchanged and calls nothing on the control
plane; a decision whose age is 500 ms or less is not dropped but handled under
the lock, and at an age of exactly 500 ms a new group asked for 1500 does
provision. -/
theorem freshness_gate (C now : Int) (prov : Int → Option Int) (s : lbGroup) (ts wanted : Int) :
    (now - ts > VALID_REQUEST_LIFETIME → target C now prov s ts wanted = (s, []))
    ∧ (now - ts ≤ VALID_REQUEST_LIFETIME →
        target C now prov s ts wanted = targetLocked C now prov s wanted)
    ∧ VALID_REQUEST_LIFETIME = 500 * 1000000
    ∧ target 512 (ts + 500 * 1000000) (fun n => some n) (newLBGroup "G") ts 1500
        = ({ newLBGroup "G" with target_capacity := 1536 },
           [CPCall.ProvisionRunners "G" 3])
    ∧ target 512 (ts + 500 * 1000000 + 1) (fun n => some n) (newLBGroup "G") ts 1500
        = (newLBGroup "G", []) := by
  refine ⟨?_, ?_, by decide, ?_, ?_⟩
  · intro h
    simp only [target, h, if_true]
  · intro h
    have h2 : ¬ now - ts > VALID_REQUEST_LIFETIME := by omega
    simp only [target, h2, if_false]
  · have h2 : ¬ ts + 500 * 1000000 - ts > VALID_REQUEST_LIFETIME := by
      simp only [VALID_REQUEST_LIFETIME]; omega
    simp only [target, h2, if_false]
    rfl
  · have h2 : ts + 500 * 1000000 + 1 - ts > VALID_REQUEST_LIFETIME := by
      simp only [VALID_REQUEST_LIFETIME]; omega
    simp only [target, h2, if_true]

/-- C6 (provision count and cap): a fresh decision whose `wanted` exceeds
`target_capacity` after the reactivation loop calls `ProvisionRunners` exactly
once, with `min(ceil((wanted - target_capacity) / CAPACITY_PER_RUNNER), 20)`
for the `target_capacity` after reactivation, whenever `CAPACITY_PER_RUNNER` is
below `2^48` and the shortfall is an `int64` (the subtraction does not
overflow): in that range the `float64` computation of the code gives the exact
count.  No decision at all ever asks for more than 20 at once; a new group with
`wanted = 1500` and 512 per runner asks for 3. -/
theorem provision_count_and_cap (C now : Int) (prov : Int → Option Int) (s : lbGroup)
    (ts wanted : Int) (hC : 0 < C) (hC2 : C < 2 ^ 48)
    (hfresh : now - ts ≤ VALID_REQUEST_LIFETIME)
    (hshort : wanted > (reactivate wanted s.draining_runners.length s).target_capacity)
    (hrange : wanted - (reactivate wanted s.draining_runners.length s).target_capacity
      < 2 ^ 63) :
    (target C now prov s ts wanted).2
        = [CPCall.ProvisionRunners s.id
            (min ⌈((wanted - (reactivate wanted s.draining_runners.length s).target_capacity
                    : Int) : ℚ) / (C : ℚ)⌉ LARGEST_REQUEST_AT_ONCE)]
    ∧ (∀ (C2 now2 : Int) (prov2 : Int → Option Int) (s2 : lbGroup) (ts2 wanted2 : Int),
        (target C2 now2 prov2 s2 ts2 wanted2).2.length ≤ 1
        ∧ ∀ (g : String) (n : Int),
            CPCall.ProvisionRunners g n ∈ (target C2 now2 prov2 s2 ts2 wanted2).2 →
            n ≤ LARGEST_REQUEST_AT_ONCE)
    ∧ LARGEST_REQUEST_AT_ONCE = 20
    ∧ (target 512 now prov (newLBGroup "G") ts 1500).2 = [CPCall.ProvisionRunners "G" 3] := by
  have hgate : ¬ now - ts > VALID_REQUEST_LIFETIME := by omega
  have hup : wanted > s.target_capacity := by
    by_contra hle
    rw [reactivate_stop wanted s hle] at hshort
    exact hle hshort
  have hw : wrap64 (wanted - (reactivate wanted s.draining_runners.length s).target_capacity)
      = wanted - (reactivate wanted s.draining_runners.length s).target_capacity :=
    wrap64_of_range (by omega) (by omega)
  refine ⟨?_, ?_, rfl, ?_⟩
  · simp only [target, hgate, if_false, targetLocked, hup, if_true, hshort, hw]
    rw [provisionCount_eq_ceil_wide _ _ hC hC2 (by omega) hrange, (reactivate_frame wanted _ s).1]
    cases prov (min ⌈((wanted -
        (reactivate wanted s.draining_runners.length s).target_capacity : Int) : ℚ) / (C : ℚ)⌉
        LARGEST_REQUEST_AT_ONCE)
      <;> rfl
  · intro C2 now2 prov2 s2 ts2 wanted2
    simp only [target, targetLocked]
    split
    · simp
    · split
      · split
        · split <;> simp [provisionCount_le]
        · simp
      · split <;> simp
  · simp only [target, hgate, if_false]
    have : targetLocked 512 now prov (newLBGroup "G") 1500
        = (match prov 3 with
            | none => (newLBGroup "G", [CPCall.ProvisionRunners "G" 3])
            | some asked_for =>
              ({ newLBGroup "G" with target_capacity := wrap64 (0 + wrap64 (asked_for * 512)) },
               [CPCall.ProvisionRunners "G" 3])) := by
      rfl
    rw [this]
    cases prov 3 <;> rfl

/-! ## Provisioning errors and hysteresis -/

set_option maxRecDepth 20000 in
theorem oneActiveOneDraining_eq :
    oneActiveOneDraining =
      { id := "G", total_wanted := 0, requirements := [], current_capacity := 512,
        target_capacity := 512, runners := [],
        active_runners :=
          [{ id := "r1", address := "10.0.0.1", status := RUNNER_ACTIVE, capacity := 512,
             kill_after := 0 }],
        draining_runners :=
          [{ id := "r2", address := "10.0.0.2", status := RUNNER_DRAINING, capacity := 512,
             kill_after := 120000000002 }],
        dead_runners := [] } := by
  decide

theorem oneActiveOneDraining_reachable : RunReachable "G" 512 oneActiveOneDraining :=
  RunReachable.target 2 (fun n => some n) 2 0
    (RunReachable.poll 1 (some twoHosts)
      (RunReachable.target 0 (fun n => some n) 0 1024 RunReachable.init))

/-- C6 at the reachable group with one active and one draining runner of
capacity 512 and `wanted = 2000`: after reactivation `target_capacity` is 1024
and the shortfall 976, so 2 runners are asked for. -/
theorem provision_count_and_cap_witness :
    (target 512 3 (fun n => some n) oneActiveOneDraining 3 2000).2
        = [CPCall.ProvisionRunners "G" 2]
    ∧ min ⌈((976 : Int) : ℚ) / ((512 : Int) : ℚ)⌉ LARGEST_REQUEST_AT_ONCE = 2 := by
  have e : (target 512 3 (fun n => some n) oneActiveOneDraining 3 2000).2
      = [CPCall.ProvisionRunners "G" 2] := by rw [oneActiveOneDraining_eq]; decide
  have hr : 2000 - (reactivate 2000 oneActiveOneDraining.draining_runners.length
      oneActiveOneDraining).target_capacity = 976 := by rw [oneActiveOneDraining_eq]; decide
  have h := (provision_count_and_cap 512 3 (fun n => some n) oneActiveOneDraining 3 2000
    (by decide) (by decide) (by decide) (by rw [oneActiveOneDraining_eq]; decide)
    (by rw [hr]; decide)).1
  rw [e, hr] at h
  simp only [List.cons.injEq, CPCall.ProvisionRunners.injEq, and_true] at h
  exact ⟨e, h.2.symm⟩

/-- C7, as stated, fails: in a reachable group with one active and one
draining runner, a fresh decision with `wanted = 2000` whose provision call
returns an error still reactivates the draining runner, so the state after
`target` differs from the state before. -/
theorem provision_error_after_reactivation_changes_state :
    RunReachable "G" 512 oneActiveOneDraining
    ∧ (target 512 3 (fun _ => none) oneActiveOneDraining 3 2000).2
        = [CPCall.ProvisionRunners "G" 2]
    ∧ (target 512 3 (fun _ => none) oneActiveOneDraining 3 2000).1 ≠ oneActiveOneDraining
    ∧ oneActiveOneDraining.current_capacity = 512
    ∧ (target 512 3 (fun _ => none) oneActiveOneDraining 3 2000).1.current_capacity = 1024
    ∧ oneActiveOneDraining.draining_runners.length = 1
    ∧ (target 512 3 (fun _ => none) oneActiveOneDraining 3 2000).1.draining_runners = [] := by
  refine ⟨oneActiveOneDraining_reachable, ?_⟩
  rw [oneActiveOneDraining_eq]
  refine ⟨by decide, by decide, by decide, by decide, by decide, by decide⟩

/-- C7, amended: when the provision call of a fresh decision returns an error,
the provisioning step changes nothing, so the group state after `target` is
the state after the reactivation loop (nothing is added to `target_capacity`
for the failed request); if no runner was draining, that is the state before
the call. -/
theorem provision_error_keeps_reactivated_state (C now : Int) (prov : Int → Option Int)
    (s : lbGroup) (ts wanted : Int) (hfresh : now - ts ≤ VALID_REQUEST_LIFETIME)
    (hshort : wanted > (reactivate wanted s.draining_runners.length s).target_capacity)
    (herr : prov (provisionCount C
        (wrap64 (wanted - (reactivate wanted s.draining_runners.length s).target_capacity)))
      = none) :
    (target C now prov s ts wanted).1 = reactivate wanted s.draining_runners.length s
    ∧ (target C now prov s ts wanted).2
        = [CPCall.ProvisionRunners s.id (provisionCount C
            (wrap64 (wanted - (reactivate wanted s.draining_runners.length s).target_capacity)))]
    ∧ (s.draining_runners = [] → (target C now prov s ts wanted).1 = s) := by
  have hgate : ¬ now - ts > VALID_REQUEST_LIFETIME := by omega
  have hup : wanted > s.target_capacity := by
    by_contra hle
    rw [reactivate_stop wanted s hle] at hshort
    exact hle hshort
  have h1 : target C now prov s ts wanted
      = (reactivate wanted s.draining_runners.length s,
         [CPCall.ProvisionRunners s.id (provisionCount C
            (wrap64 (wanted - (reactivate wanted s.draining_runners.length s).target_capacity)))]) := by
    simp only [target, hgate, if_false, targetLocked, hup, if_true, hshort, herr,
      (reactivate_frame wanted _ s).1]
  refine ⟨by rw [h1], by rw [h1], ?_⟩
  intro hd
  rw [h1, hd]
  rfl

/-- C7 (amended) at the group with one active and one draining runner: after
the failed request the state is the one the reactivation loop produced. -/
theorem provision_error_keeps_reactivated_state_witness :
    (target 512 3 (fun _ => none) oneActiveOneDraining 3 2000).1
      = reactivate 2000 oneActiveOneDraining.draining_runners.length oneActiveOneDraining :=
  (provision_error_keeps_reactivated_state 512 3 (fun _ => none) oneActiveOneDraining 3 2000
    (by decide) (by rw [oneActiveOneDraining_eq]; decide) rfl).1

theorem sum_capacities_dropLast (l : List runner) (r : runner) (h : l.getLast? = some r) :
    (capacities l).sum = (capacities l.dropLast).sum + r.capacity := by
  have h2 : l.dropLast ++ [r] = l := List.dropLast_append_getLast? r (by simp [h])
  conv_lhs => rw [← h2]
  simp [capacities]

theorem reactivate_current_mono (tgt : Int) (fuel : Nat) :
    ∀ s : lbGroup, (∀ r ∈ s.draining_runners, 0 ≤ r.capacity) →
      -2 ^ 63 ≤ s.current_capacity →
      s.current_capacity + (capacities s.draining_runners).sum < 2 ^ 63 →
      s.current_capacity ≤ (reactivate tgt fuel s).current_capacity := by
  induction fuel with
  | zero => intro s _ _ _; exact le_refl _
  | succ n ih =>
    intro s hcap hlo hhi
    unfold reactivate
    split
    · split
      · exact le_refl _
      · rename_i r hr
        have hsum := sum_capacities_dropLast _ _ hr
        have hmem : r ∈ s.draining_runners := List.mem_of_getLast?_eq_some hr
        have hr0 := hcap r hmem
        have hdl : ∀ x ∈ s.draining_runners.dropLast, 0 ≤ x.capacity :=
          fun x hx => hcap x (List.dropLast_subset _ hx)
        have hnn : 0 ≤ (capacities s.draining_runners.dropLast).sum := by
          apply List.sum_nonneg
          intro x hx
          simp only [capacities, List.mem_map] at hx
          obtain ⟨y, hy, rfl⟩ := hx
          exact hdl y hy
        have hw : wrap64 (s.current_capacity + r.capacity) = s.current_capacity + r.capacity :=
          wrap64_of_range (by omega) (by omega)
        have := ih
          { s with
            draining_runners := s.draining_runners.dropLast,
            active_runners := s.active_runners ++ [{ r with status := RUNNER_ACTIVE }],
            current_capacity := wrap64 (s.current_capacity + r.capacity),
            target_capacity := wrap64 (s.target_capacity + r.capacity) }
          hdl (by simp only [hw]; omega) (by simp only [hw]; omega)
        simp only [hw] at this ⊢
        omega
    · exact le_refl _

/-- C8 (hysteresis): a decision with
`wanted >= current_capacity - CAPACITY_PER_RUNNER` (an `int64` difference)
drains nothing: the active runners stay active, in place, no runner is added
to draining, and `current_capacity` does not decrease (runner capacities being
non-negative and the sum of current and draining capacity an `int64`). -/
theorem hysteresis (C now : Int) (prov : Int → Option Int) (s : lbGroup) (ts wanted : Int)
    (h : wanted ≥ wrap64 (s.current_capacity - C)) :
    s.active_runners <+: (target C now prov s ts wanted).1.active_runners
    ∧ (target C now prov s ts wanted).1.draining_runners <+: s.draining_runners
    ∧ ((∀ r ∈ s.draining_runners, 0 ≤ r.capacity) →
        -2 ^ 63 ≤ s.current_capacity →
        s.current_capacity + (s.draining_runners.map (fun r => r.capacity)).sum < 2 ^ 63 →
        s.current_capacity ≤ (target C now prov s ts wanted).1.current_capacity) := by
  have hno : ¬ wanted < wrap64 (s.current_capacity - C) := by omega
  have hf := reactivate_frame wanted s.draining_runners.length s
  simp only [target, targetLocked, hno, if_false]
  split
  · exact ⟨List.prefix_refl _, List.prefix_refl _, fun _ _ _ => le_refl _⟩
  · split
    · split
      · split
        · exact ⟨hf.2.2.2.2.2.1, hf.2.2.2.2.2.2,
            fun h1 h2 h3 => reactivate_current_mono wanted _ s h1 h2 h3⟩
        · exact ⟨hf.2.2.2.2.2.1, hf.2.2.2.2.2.2,
            fun h1 h2 h3 => reactivate_current_mono wanted _ s h1 h2 h3⟩
      · exact ⟨hf.2.2.2.2.2.1, hf.2.2.2.2.2.2,
          fun h1 h2 h3 => reactivate_current_mono wanted _ s h1 h2 h3⟩
    · exact ⟨List.prefix_refl _, List.prefix_refl _, fun _ _ _ => le_refl _⟩

/-- C8 at the group with one active and one draining runner and
`wanted = 100`: `100 >= 512 - 512`, and the decision changes nothing. -/
theorem hysteresis_witness :
    oneActiveOneDraining.active_runners
        <+: (target 512 3 (fun n => some n) oneActiveOneDraining 3 100).1.active_runners
    ∧ (target 512 3 (fun n => some n) oneActiveOneDraining 3 100).1.draining_runners
        <+: oneActiveOneDraining.draining_runners
    ∧ (target 512 3 (fun n => some n) oneActiveOneDraining 3 100).1.current_capacity = 512 := by
  have h := hysteresis 512 3 (fun n => some n) oneActiveOneDraining 3 100
    (by rw [oneActiveOneDraining_eq]; decide)
  exact ⟨h.1, h.2.1, by rw [oneActiveOneDraining_eq]; decide⟩

/-! ## Capacity counters over reachable states -/

theorem reactivate_activeCapacity (tgt : Int) (fuel : Nat) :
    ∀ s : lbGroup, ActiveCapacityOk s → ActiveCapacityOk (reactivate tgt fuel s) := by
  induction fuel with
  | zero => intro s hs; exact hs
  | succ n ih =>
    intro s hs
    unfold reactivate
    split
    · split
      · exact hs
      · rename_i r hr
        apply ih
        simp only [ActiveCapacityOk, capacities, List.map_append, List.map_cons, List.map_nil,
          List.sum_append, List.sum_cons, List.sum_nil, add_zero] at hs ⊢
        rw [hs, wrap64_add_left]
    · exact hs

theorem drain_activeCapacity (C now tgt : Int) (fuel : Nat) :
    ∀ s : lbGroup, ActiveCapacityOk s → ActiveCapacityOk (drain C now tgt fuel s) := by
  induction fuel with
  | zero => intro s hs; exact hs
  | succ n ih =>
    intro s hs
    unfold drain
    split
    · split
      · exact hs
      · rename_i r hr
        apply ih
        have hsum := sum_capacities_dropLast _ _ hr
        simp only [ActiveCapacityOk] at hs ⊢
        rw [hs, wrap64_sub_left, hsum]
        congr 1
        ring
    · exact hs

theorem expire_frame (now : Int) (fuel : Nat) :
    ∀ (s : lbGroup) (calls : List CPCall),
      (expire now fuel (s, calls)).1.active_runners = s.active_runners
      ∧ (expire now fuel (s, calls)).1.current_capacity = s.current_capacity
      ∧ (expire now fuel (s, calls)).1.target_capacity = s.target_capacity
      ∧ (expire now fuel (s, calls)).1.id = s.id := by
  induction fuel with
  | zero => intro s calls; exact ⟨rfl, rfl, rfl, rfl⟩
  | succ n ih =>
    intro s calls
    unfold expire
    split
    · exact ⟨rfl, rfl, rfl, rfl⟩
    · split
      · rename_i r rest hd hk
        exact ih _ _
      · exact ⟨rfl, rfl, rfl, rfl⟩

theorem reconcileStep_activeCapacity (acc : lbGroup × List String) (host : Host)
    (h : ActiveCapacityOk acc.1) : ActiveCapacityOk (reconcileStep acc host).1 := by
  unfold reconcileStep
  split
  · exact h
  · simp only [ActiveCapacityOk, capacities, List.map_append, List.map_cons, List.map_nil,
      List.sum_append, List.sum_cons, List.sum_nil, add_zero] at h ⊢
    rw [h, wrap64_add_left]

theorem reconcile_activeCapacity (hosts : List Host) :
    ∀ acc : lbGroup × List String, ActiveCapacityOk acc.1 →
      ActiveCapacityOk (hosts.foldl reconcileStep acc).1 := by
  induction hosts with
  | nil => intro acc h; exact h
  | cons host rest ih =>
    intro acc h
    rw [List.foldl_cons]
    exact ih _ (reconcileStep_activeCapacity acc host h)

theorem target_activeCapacity (C now : Int) (prov : Int → Option Int) (s : lbGroup)
    (ts tgt : Int) (h : ActiveCapacityOk s) : ActiveCapacityOk (target C now prov s ts tgt).1 := by
  have hr := reactivate_activeCapacity tgt s.draining_runners.length s h
  have hd := drain_activeCapacity C now tgt s.active_runners.length s h
  simp only [target, targetLocked]
  split
  · exact h
  · split
    · split
      · split
        · exact hr
        · exact hr
      · exact hr
    · split
      · exact hd
      · exact h

theorem pollForRunners_activeCapacity (now : Int) (latestHosts : Option (List Host))
    (s : lbGroup) (h : ActiveCapacityOk s) :
    ActiveCapacityOk (pollForRunners now latestHosts s).1 := by
  have he := expire_frame now s.draining_runners.length s []
  have h1 : ActiveCapacityOk (expire now s.draining_runners.length (s, [])).1 := by
    simp only [ActiveCapacityOk, he.1, he.2.1]
    exact h
  unfold pollForRunners
  cases latestHosts with
  | none => exact h1
  | some hosts => exact reconcile_activeCapacity hosts (_, []) h1

/-- C9 (active-capacity invariant): in every state reachable from a new group
by `target` decisions and poll steps, whatever the control plane answers,
`current_capacity` is the `int64` sum of the capacities of the runners in
`active_runners`. -/
theorem active_capacity_invariant (gid : String) (C : Int) (s : lbGroup)
    (h : RunReachable gid C s) :
    s.current_capacity = sum64 (s.active_runners.map (fun r => r.capacity)) := by
  rw [sum64_eq]
  induction h with
  | init => show (0 : Int) = wrap64 0; decide
  | target now prov ts tgt _ ih => exact target_activeCapacity C now prov _ ts tgt ih
  | poll now latestHosts _ ih => exact pollForRunners_activeCapacity now latestHosts _ ih

/-- C9 at the reachable group with one active and one draining runner. -/
theorem active_capacity_invariant_witness :
    RunReachable "G" 512 oneActiveOneDraining
    ∧ oneActiveOneDraining.current_capacity
        = sum64 (oneActiveOneDraining.active_runners.map (fun r => r.capacity))
    ∧ oneActiveOneDraining.current_capacity = 512 :=
  ⟨oneActiveOneDraining_reachable,
    active_capacity_invariant "G" 512 oneActiveOneDraining oneActiveOneDraining_reachable,
    by rw [oneActiveOneDraining_eq]⟩

/-- C10 at a failing run: one runner is asked for and granted, and two polls
list that same runner.  `lbg.runners` is never written, so the second poll
takes the runner for a new one again: `current_capacity` becomes 1024 while
`target_capacity` stays 512. -/
theorem target_below_current_after_second_poll :
    RunReachable "G" 512 polledTwice
    ∧ (target 512 0 (fun n => some n) (newLBGroup "G") 0 512).2
        = [CPCall.ProvisionRunners "G" 1]
    ∧ polledTwice.target_capacity = 512
    ∧ polledTwice.current_capacity = 1024
    ∧ polledTwice.active_runners.map (fun r => r.id) = ["r1", "r1"]
    ∧ polledTwice.runners = []
    ∧ ¬ polledTwice.target_capacity ≥ polledTwice.current_capacity := by
  refine ⟨?_, by decide, by decide, by decide, by decide, by decide, by decide⟩
  exact RunReachable.poll 2 (some oneHost)
    (RunReachable.poll 1 (some oneHost)
      (RunReachable.target 0 (fun n => some n) 0 512 RunReachable.init))

/-! ## What the loops of `target` and `pollForRunners` compute -/

/-- The reactivation loop, given one unit of fuel per draining runner, moves a
suffix of `draining_runners` (listed in `moved` last-drained first) to the back
of `active_runners`, adding each capacity to both counters; it goes on while
`tgt` exceeds the running `target_capacity` and stops when it no longer does
or nothing is left. -/
theorem reactivate_spec (tgt : Int) (fuel : Nat) :
    ∀ s : lbGroup, s.draining_runners.length ≤ fuel →
      ∃ keep moved : List runner,
        s.draining_runners = keep ++ moved.reverse
        ∧ reactivate tgt fuel s
            = { s with
                draining_runners := keep,
                active_runners := s.active_runners ++ moved.map markActive,
                current_capacity := addCaps s.current_capacity moved,
                target_capacity := addCaps s.target_capacity moved }
        ∧ (∀ j, j < moved.length → tgt > addCaps s.target_capacity (moved.take j))
        ∧ (keep = [] ∨ ¬ tgt > addCaps s.target_capacity moved) := by
  induction fuel with
  | zero =>
    intro s hs
    have hd : s.draining_runners = [] := List.length_eq_zero.mp (by omega)
    refine ⟨[], [], by simp [hd], ?_, by simp, Or.inl rfl⟩
    cases s
    simp only [reactivate, addCaps, List.foldl_nil, List.map_nil, List.append_nil] at hd ⊢
    simp [hd]
  | succ n ih =>
    intro s hs
    unfold reactivate
    split
    · rename_i hc
      split
      · rename_i hnone
        rw [List.getLast?_eq_none_iff] at hnone
        simp [hnone] at hc
      · rename_i r hr
        have hsplit : s.draining_runners.dropLast ++ [r] = s.draining_runners :=
          List.dropLast_append_getLast? r (by simp [hr])
        obtain ⟨keep, moved, h1, h2, h3, h4⟩ := ih
          { s with
            draining_runners := s.draining_runners.dropLast,
            active_runners := s.active_runners ++ [{ r with status := RUNNER_ACTIVE }],
            current_capacity := wrap64 (s.current_capacity + r.capacity),
            target_capacity := wrap64 (s.target_capacity + r.capacity) }
          (by simp only [List.length_dropLast]; omega)
        simp only at h1 h2 h3 h4
        refine ⟨keep, r :: moved, ?_, ?_, ?_, ?_⟩
        · rw [← hsplit, h1]
          simp
        · rw [h2]
          simp [addCaps, markActive]
        · intro j hj
          cases j with
          | zero => simpa [addCaps] using hc.1
          | succ j' =>
            have := h3 j' (by simpa using hj)
            simpa [addCaps] using this
        · simpa [addCaps] using h4
    · rename_i hc
      refine ⟨s.draining_runners, [], by simp, ?_, by simp, ?_⟩
      · cases s
        simp [addCaps]
      · by_cases hl : s.draining_runners = []
        · exact Or.inl hl
        · right
          have : s.draining_runners.length > 0 := List.length_pos.mpr hl
          simp only [addCaps, List.foldl_nil]
          intro hgt
          exact hc ⟨hgt, this⟩

/-- The drain loop, given one unit of fuel per active runner, moves a suffix
of `active_runners` (listed in `moved` most recently added first) to the back
of `draining_runners`, subtracting each capacity from both counters; it goes on
while `tgt` is below the running `current_capacity - C` and stops when it no
longer is or nothing is left. -/
theorem drain_spec (C now tgt : Int) (fuel : Nat) :
    ∀ s : lbGroup, s.active_runners.length ≤ fuel →
      ∃ keep moved : List runner,
        s.active_runners = keep ++ moved.reverse
        ∧ drain C now tgt fuel s
            = { s with
                active_runners := keep,
                draining_runners := s.draining_runners ++ moved.map (markDraining now),
                current_capacity := subCaps s.current_capacity moved,
                target_capacity := subCaps s.target_capacity moved }
        ∧ (∀ j, j < moved.length →
            tgt < wrap64 (subCaps s.current_capacity (moved.take j) - C))
        ∧ (keep = [] ∨ ¬ tgt < wrap64 (subCaps s.current_capacity moved - C)) := by
  induction fuel with
  | zero =>
    intro s hs
    have hd : s.active_runners = [] := List.length_eq_zero.mp (by omega)
    refine ⟨[], [], by simp [hd], ?_, by simp, Or.inl rfl⟩
    cases s
    simp only [drain, subCaps, List.foldl_nil, List.map_nil, List.append_nil] at hd ⊢
    simp [hd]
  | succ n ih =>
    intro s hs
    unfold drain
    split
    · rename_i hc
      split
      · rename_i hnone
        rw [List.getLast?_eq_none_iff] at hnone
        simp [hnone] at hc
      · rename_i r hr
        have hsplit : s.active_runners.dropLast ++ [r] = s.active_runners :=
          List.dropLast_append_getLast? r (by simp [hr])
        obtain ⟨keep, moved, h1, h2, h3, h4⟩ := ih
          { s with
            active_runners := s.active_runners.dropLast,
            draining_runners := s.draining_runners ++
              [{ r with status := RUNNER_DRAINING, kill_after := now + MAX_DRAINDOWN_LIFETIME }],
            current_capacity := wrap64 (s.current_capacity - r.capacity),
            target_capacity := wrap64 (s.target_capacity - r.capacity) }
          (by simp only [List.length_dropLast]; omega)
        simp only at h1 h2 h3 h4
        refine ⟨keep, r :: moved, ?_, ?_, ?_, ?_⟩
        · rw [← hsplit, h1]
          simp
        · rw [h2]
          simp [subCaps, markDraining]
        · intro j hj
          cases j with
          | zero => simpa [subCaps] using hc.1
          | succ j' =>
            have := h3 j' (by simpa using hj)
            simpa [subCaps] using this
        · simpa [subCaps] using h4
    · rename_i hc
      refine ⟨s.active_runners, [], by simp, ?_, by simp, ?_⟩
      · cases s
        simp [subCaps]
      · by_cases hl : s.active_runners = []
        · exact Or.inl hl
        · right
          have : s.active_runners.length > 0 := List.length_pos.mpr hl
          simp only [subCaps, List.foldl_nil]
          intro hgt
          exact hc ⟨hgt, this⟩

/-- The expiry loop, given one unit of fuel per draining runner, moves the
longest prefix of `draining_runners` whose `kill_after` is before `now` to the
back of `dead_runners` and asks the control plane to remove each of them. -/
theorem expire_spec (now : Int) (fuel : Nat) :
    ∀ (s : lbGroup) (calls : List CPCall), s.draining_runners.length ≤ fuel →
      expire now fuel (s, calls)
        = ({ s with
              draining_runners := s.draining_runners.dropWhile (expired now),
              dead_runners :=
                s.dead_runners ++ (s.draining_runners.takeWhile (expired now)).map markDead },
           calls ++ (s.draining_runners.takeWhile (expired now)).map
              (fun r => CPCall.RemoveRunner s.id r.id)) := by
  induction fuel with
  | zero =>
    intro s calls hs
    have hd : s.draining_runners = [] := List.length_eq_zero.mp (by omega)
    cases s
    simp only at hd
    simp [expire, hd]
  | succ n ih =>
    intro s calls hs
    unfold expire
    split
    · rename_i hd
      cases s
      simp only at hd
      simp [hd]
    · rename_i r rest hd
      split
      · rename_i hk
        rw [ih _ _ (by simp only; rw [hd] at hs; simp at hs; omega)]
        have he : expired now r = true := by simp [expired, hk]
        simp [hd, List.dropWhile_cons, List.takeWhile_cons, he, markDead]
      · rename_i hk
        have he : expired now r = false := by simp [expired, hk]
        cases s
        simp only at hd
        simp [hd, List.dropWhile_cons, List.takeWhile_cons, he]

theorem reconcile_frame (hosts : List Host) :
    ∀ acc : lbGroup × List String,
      (hosts.foldl reconcileStep acc).1.draining_runners = acc.1.draining_runners
      ∧ (hosts.foldl reconcileStep acc).1.dead_runners = acc.1.dead_runners
      ∧ (hosts.foldl reconcileStep acc).1.target_capacity = acc.1.target_capacity
      ∧ (hosts.foldl reconcileStep acc).1.runners = acc.1.runners
      ∧ (hosts.foldl reconcileStep acc).1.id = acc.1.id := by
  induction hosts with
  | nil => intro acc; exact ⟨rfl, rfl, rfl, rfl, rfl⟩
  | cons host rest ih =>
    intro acc
    rw [List.foldl_cons]
    obtain ⟨h1, h2, h3, h4, h5⟩ := ih (reconcileStep acc host)
    rw [h1, h2, h3, h4, h5]
    unfold reconcileStep
    split <;> exact ⟨rfl, rfl, rfl, rfl, rfl⟩

theorem pollForRunners_draining (now : Int) (latestHosts : Option (List Host)) (s : lbGroup) :
    (pollForRunners now latestHosts s).1.draining_runners
      = s.draining_runners.dropWhile (expired now) := by
  unfold pollForRunners
  cases latestHosts with
  | none => simp only [expire_spec now _ s [] (le_refl _)]
  | some hosts =>
    simp only [(reconcile_frame hosts _).1, expire_spec now _ s [] (le_refl _)]

/-- C11 at a failing run: a new group is polled twice and the control plane
lists the single runner `r1` both times (each listing names it once).
`lbg.runners` is never written, so the second poll inserts `r1` again and the
id appears twice among the active runners. -/
theorem runner_id_twice_after_second_poll :
    ListedOnceReachable "G" 512 listedTwice
    ∧ allRunnerIds listedTwice = ["r1", "r1"]
    ∧ ¬ (allRunnerIds listedTwice).Nodup
    ∧ ¬ (listedTwice.active_runners.map (fun r => r.id)).Nodup := by
  refine ⟨?_, by decide, by decide, by decide⟩
  exact ListedOnceReachable.poll 2 (some oneHost)
    (ListedOnceReachable.poll 1 (some oneHost) ListedOnceReachable.init
      (by intro hosts h; cases h; decide))
    (by intro hosts h; cases h; decide)

/-! ## Draining order -/

theorem target_draining (C now : Int) (prov : Int → Option Int) (s : lbGroup) (ts tgt : Int) :
    (target C now prov s ts tgt).1.draining_runners <+: s.draining_runners
    ∨ ∃ moved : List runner,
        (target C now prov s ts tgt).1.draining_runners
          = s.draining_runners ++ moved.map (markDraining now) := by
  have hf := (reactivate_frame tgt s.draining_runners.length s).2.2.2.2.2.2
  simp only [target, targetLocked]
  split
  · exact Or.inl (List.prefix_refl _)
  · split
    · split
      · split <;> exact Or.inl hf
      · exact Or.inl hf
    · split
      · obtain ⟨keep, moved, _, h2, _, _⟩ :=
          drain_spec C now tgt s.active_runners.length s (le_refl _)
        right
        exact ⟨moved, by rw [h2]⟩
      · exact Or.inl (List.prefix_refl _)

theorem clock_reachable_inv {gid : String} {C clock : Int} {s : lbGroup}
    (h : ClockReachable gid C clock s) :
    List.Sorted (· ≤ ·) (s.draining_runners.map (fun r => r.kill_after))
    ∧ ∀ r ∈ s.draining_runners, r.kill_after ≤ clock + MAX_DRAINDOWN_LIFETIME := by
  induction h with
  | init t0 => exact ⟨List.sorted_nil, by intro r hr; simp [newLBGroup] at hr⟩
  | @target clock s now prov ts tgt _ hle ih =>
    rcases target_draining C now prov s ts tgt with hp | ⟨moved, hm⟩
    · refine ⟨?_, ?_⟩
      · exact List.Pairwise.sublist (List.Sublist.map _ hp.sublist) ih.1
      · intro r hr
        have := ih.2 r (hp.subset hr)
        omega
    · rw [hm]
      refine ⟨?_, ?_⟩
      · rw [List.map_append]
        unfold List.Sorted
        rw [List.pairwise_append]
        refine ⟨ih.1, ?_, ?_⟩
        · rw [List.pairwise_map, List.pairwise_map]
          exact List.pairwise_of_forall (fun x y => by simp [markDraining])
        · intro a ha b hb
          simp only [List.mem_map] at ha hb
          obtain ⟨x, hx, rfl⟩ := ha
          obtain ⟨y, ⟨z, _, rfl⟩, rfl⟩ := hb
          have := ih.2 x hx
          simp only [markDraining]
          omega
      · intro r hr
        rcases List.mem_append.mp hr with h1 | h1
        · have := ih.2 r h1
          omega
        · simp only [List.mem_map] at h1
          obtain ⟨z, _, rfl⟩ := h1
          simp [markDraining]
  | @poll clock s now latestHosts _ hle ih =>
    rw [pollForRunners_draining]
    have hs : s.draining_runners.dropWhile (expired now) <:+ s.draining_runners :=
      List.dropWhile_suffix _
    refine ⟨?_, ?_⟩
    · exact List.Pairwise.sublist (List.Sublist.map _ hs.sublist) ih.1
    · intro r hr
      have := ih.2 r (hs.subset hr)
      omega

/-- C12 (draining order): in every state reachable from a new group by
`target` decisions and poll steps whose clock readings never go back,
`draining_runners` is ordered by non-decreasing `kill_after`, so no draining
runner is due before the one at the front. -/
theorem draining_order_invariant (gid : String) (C clock : Int) (s : lbGroup)
    (h : ClockReachable gid C clock s) :
    List.Sorted (· ≤ ·) (s.draining_runners.map (fun r => r.kill_after))
    ∧ (∀ (i j : Nat) (hi : i < s.draining_runners.length) (hj : j < s.draining_runners.length),
        i ≤ j → (s.draining_runners.get ⟨i, hi⟩).kill_after
                  ≤ (s.draining_runners.get ⟨j, hj⟩).kill_after)
    ∧ (∀ front ∈ s.draining_runners.head?, ∀ r ∈ s.draining_runners,
        front.kill_after ≤ r.kill_after) := by
  have hs := (clock_reachable_inv h).1
  have hp : s.draining_runners.Pairwise (fun a b => a.kill_after ≤ b.kill_after) :=
    List.pairwise_map.mp hs
  refine ⟨hs, ?_, ?_⟩
  · intro i j hi hj hij
    rcases Nat.lt_or_eq_of_le hij with hlt | heq
    · exact List.pairwise_iff_get.mp hp ⟨i, hi⟩ ⟨j, hj⟩ hlt
    · subst heq
      exact le_refl _
  · intro front hfront r hr
    cases hd : s.draining_runners with
    | nil => rw [hd] at hr; simp at hr
    | cons a rest =>
      rw [hd] at hfront hr hp
      simp only [List.head?_cons, Option.mem_def, Option.some.injEq] at hfront
      subst hfront
      rcases List.mem_cons.mp hr with h1 | h1
      · rw [h1]
      · exact (List.pairwise_cons.mp hp).1 r h1

set_option maxRecDepth 20000 in
theorem threeActive_eq :
    threeActive =
      { id := "G", total_wanted := 0, requirements := [], current_capacity := 1536,
        target_capacity := 1536, runners := [],
        active_runners :=
          [{ id := "r1", address := "10.0.0.1", status := RUNNER_ACTIVE, capacity := 512,
             kill_after := 0 },
           { id := "r2", address := "10.0.0.2", status := RUNNER_ACTIVE, capacity := 512,
             kill_after := 0 },
           { id := "r3", address := "10.0.0.3", status := RUNNER_ACTIVE, capacity := 512,
             kill_after := 0 }],
        draining_runners := [], dead_runners := [] } := by
  decide

set_option maxRecDepth 20000 in
theorem drainedOne_eq :
    drainedOne =
      { id := "G", total_wanted := 0, requirements := [], current_capacity := 1024,
        target_capacity := 1024, runners := [],
        active_runners :=
          [{ id := "r1", address := "10.0.0.1", status := RUNNER_ACTIVE, capacity := 512,
             kill_after := 0 },
           { id := "r2", address := "10.0.0.2", status := RUNNER_ACTIVE, capacity := 512,
             kill_after := 0 }],
        draining_runners :=
          [{ id := "r3", address := "10.0.0.3", status := RUNNER_DRAINING, capacity := 512,
             kill_after := 120000000010 }],
        dead_runners := [] } := by
  unfold drainedOne
  rw [threeActive_eq]
  decide

set_option maxRecDepth 20000 in
theorem drainedTwo_eq :
    drainedTwo =
      { id := "G", total_wanted := 0, requirements := [], current_capacity := 512,
        target_capacity := 512, runners := [],
        active_runners :=
          [{ id := "r1", address := "10.0.0.1", status := RUNNER_ACTIVE, capacity := 512,
             kill_after := 0 }],
        draining_runners :=
          [{ id := "r3", address := "10.0.0.3", status := RUNNER_DRAINING, capacity := 512,
             kill_after := 120000000010 },
           { id := "r2", address := "10.0.0.2", status := RUNNER_DRAINING, capacity := 512,
             kill_after := 120000000020 }],
        dead_runners := [] } := by
  unfold drainedTwo
  rw [drainedOne_eq]
  decide

theorem drainedTwo_reachable : ClockReachable "G" 512 20 drainedTwo :=
  ClockReachable.target 20 (fun n => some n) 20 0
    (ClockReachable.target 10 (fun n => some n) 10 600
      (ClockReachable.poll 1 (some threeHosts)
        (ClockReachable.target 0 (fun n => some n) 0 1500 (ClockReachable.init 0) (le_refl _))
        (by decide))
      (by decide))
    (by decide)

/-- C12 at a group that drained one runner at time 10 and another at time 20:
the two draining runners are due at `10 + 120 s` and `20 + 120 s`, in that
order. -/
theorem draining_order_invariant_witness :
    ClockReachable "G" 512 20 drainedTwo
    ∧ List.Sorted (· ≤ ·) (drainedTwo.draining_runners.map (fun r => r.kill_after))
    ∧ drainedTwo.draining_runners.map (fun r => r.kill_after)
        = [120000000010, 120000000020] :=
  ⟨drainedTwo_reachable, (draining_order_invariant "G" 512 20 drainedTwo drainedTwo_reachable).1,
    by rw [drainedTwo_eq]; rfl⟩

/-! ## Members query -/

theorem fill_members (l : List runner) :
    ∀ (n : Nat) (pre : List String), pre.length = n →
      (l.enumFrom n).foldl (fun members ir => members.set ir.1 ir.2.address)
          (pre ++ List.replicate l.length "")
        = pre ++ l.map (fun r => r.address) := by
  induction l with
  | nil => intro n pre _; simp
  | cons r rest ih =>
    intro n pre hpre
    have h := ih (n + 1) (pre ++ [r.address]) (by simp [hpre])
    simp only [List.enumFrom_cons, List.foldl_cons, List.length_cons, List.replicate_succ,
      List.map_cons]
    rw [List.set_append_right _ _ (by omega)]
    simp only [hpre, Nat.sub_self, List.set_cons_zero]
    simpa using h

theorem GetMembers_eq (s : lbGroup) :
    GetMembers s = (s, s.active_runners.map (fun r => r.address)) := by
  have h := fill_members s.active_runners 0 [] rfl
  simp only [List.nil_append] at h
  simp only [GetMembers, List.enum, h]

/-- C13 (members query): `GetMembers` returns a list as long as
`active_runners` whose `i`-th element is the address of the `i`-th active
runner; every address returned is the address of an active runner, so a
draining or dead runner whose address no active runner has is not in it; and
the group state is unchanged. -/
theorem members_are_active_addresses (s : lbGroup) :
    (GetMembers s).2.length = s.active_runners.length
    ∧ (∀ (i : Nat) (hi : i < s.active_runners.length),
        (GetMembers s).2[i]? = some (s.active_runners.get ⟨i, hi⟩).address)
    ∧ (∀ a ∈ (GetMembers s).2, ∃ r ∈ s.active_runners, r.address = a)
    ∧ (∀ r : runner, r ∈ s.draining_runners ∨ r ∈ s.dead_runners →
        (∀ a ∈ s.active_runners, a.address ≠ r.address) → r.address ∉ (GetMembers s).2)
    ∧ (GetMembers s).1 = s := by
  rw [GetMembers_eq]
  refine ⟨by simp, ?_, ?_, ?_, rfl⟩
  · intro i hi
    simp [List.getElem?_map, List.getElem?_eq_getElem hi]
  · intro a ha
    simpa using ha
  · intro r _ hne hmem
    simp only [List.mem_map] at hmem
    obtain ⟨a, ha, hra⟩ := hmem
    exact hne a ha hra

/-! ## Registry -/

/-- C14 at a failing run: on an empty registry with a free lock the first call
`LBGroup("G")` creates and returns the controller, whose id is `"G"`, but
leaves the write lock held (`defer m.mx.Lock()`); the second call
`LBGroup("G")` then blocks in `m.mx.RLock()` and returns nothing, although the
registry maps `"G"` to the controller of the first call. -/
theorem second_LBGroup_call_blocks :
    (LBGroupSync RWMutex.free NewCapacityManager "G").map (fun r => (r.1, r.2.2))
        = some ({ readers := 0, writer := true }, newLBGroup "G")
    ∧ (LBGroupSync RWMutex.free NewCapacityManager "G").map (fun r => r.2.2.id) = some "G"
    ∧ (LBGroupSync RWMutex.free NewCapacityManager "G").map (fun r => r.2.1.lbg "G")
        = some (some (newLBGroup "G"))
    ∧ (LBGroupSync RWMutex.free NewCapacityManager "G").bind
        (fun r => LBGroupSync r.1 r.2.1 "G") = none
    ∧ LBGroupTwice RWMutex.free NewCapacityManager "G" = none := by
  have h1 : LBGroupSync RWMutex.free NewCapacityManager "G"
      = some ({ readers := 0, writer := true },
              { lbg := fun k => if k = "G" then some (newLBGroup "G")
                                else NewCapacityManager.lbg k },
              newLBGroup "G") := rfl
  refine ⟨?_, ?_, ?_, ?_, ?_⟩
  · rw [h1]; rfl
  · rw [h1]; rfl
  · rw [h1]; rfl
  · rw [h1]; rfl
  · unfold LBGroupTwice
    rw [h1]
    rfl

/-! ## Purge tick -/

theorem target_requirements (C now : Int) (prov : Int → Option Int) (s : lbGroup) (ts tgt : Int) :
    (target C now prov s ts tgt).1.requirements = s.requirements
    ∧ (target C now prov s ts tgt).1.total_wanted = s.total_wanted := by
  have hf := reactivate_frame tgt s.draining_runners.length s
  simp only [target, targetLocked]
  split
  · exact ⟨rfl, rfl⟩
  · split
    · split
      · split <;> exact ⟨hf.2.2.1, hf.2.1⟩
      · exact ⟨hf.2.2.1, hf.2.1⟩
    · split
      · obtain ⟨keep, moved, _, h2, _, _⟩ :=
          drain_spec C now tgt s.active_runners.length s (le_refl _)
        rw [h2]
        exact ⟨rfl, rfl⟩
      · exact ⟨rfl, rfl⟩

/-- C15, as stated, fails: the control loop of a new group started at time 0,
no LB has reported, and the polls taken before the first purge tick, the
control plane listing no runner, left the group as it was.  The first purge
tick, taken at 5 s, returns; the loop calls `Purge` with the threshold 0, the
value of its variable `lastPurge`, and not with 5 s - 500 ms, and then
`target(5 s, 0)`. -/
theorem purge_tick_threshold_is_lastPurge :
    (controlInit 0).lastPurge = 0
    ∧ (∀ t : Int, (pollForRunners t (some []) (newLBGroup "G")).1 = newLBGroup "G")
    ∧ (controlPurge 512 5000000000 (fun n => some n) (controlInit 0) (newLBGroupState "G")).1.returns
        = true
    ∧ (controlPurge 512 5000000000 (fun n => some n) (controlInit 0) (newLBGroupState "G")).2.1
        = [ControlCall.Purge 0, ControlCall.target 5000000000 0]
    ∧ (controlPurge 512 5000000000 (fun n => some n) (controlInit 0) (newLBGroupState "G")).2.1
        ≠ [ControlCall.Purge (5000000000 - VALID_REQUEST_LIFETIME),
           ControlCall.target 5000000000 0]
    ∧ (0 : Int) ≠ 5000000000 - VALID_REQUEST_LIFETIME := by
  refine ⟨rfl, fun _ => rfl, by decide, by decide, by decide, by decide⟩

/-- C15, amended: a purge tick taken at time `now` while `cap_mx` is free, on a
requirements map whose `total_wanted` is the `int64` sum of its entries,
returns; the loop calls `Purge` with the threshold held in its variable
`lastPurge` and then `target(now, need)` with the total that `Purge` returned,
and that decision is fresh.  Right after the tick the table holds exactly the
entries whose timestamp is not before that threshold, an LB whose report is
older than the threshold has no entry, `total_wanted` is the `int64` sum of the
entries that are left, and `cap_mx` is free again. -/
theorem purge_tick_uses_loop_threshold (C now : Int) (prov : Int → Option Int)
    (c : controlVars) (st : lbGroupState)
    (hfree : st.cap_mx = false)
    (hmap : (st.g.requirements.map Prod.fst).Nodup)
    (hsum : st.g.total_wanted = sum64 (st.g.requirements.map (fun e => e.2.total_wanted))) :
    (controlPurge C now prov c st).1.returns = true
    ∧ (controlPurge C now prov c st).2.1
        = [ControlCall.Purge c.lastPurge, ControlCall.target now (Purge st.g c.lastPurge).2.2]
    ∧ ((controlPurge C now prov c st).1.state.2.g, (controlPurge C now prov c st).2.2)
        = targetLocked C now prov (Purge st.g c.lastPurge).1 (Purge st.g c.lastPurge).2.2
    ∧ (Purge st.g c.lastPurge).2.2 = (Purge st.g c.lastPurge).1.total_wanted
    ∧ (controlPurge C now prov c st).1.state.2.g.requirements
        = st.g.requirements.filter (fun e => decide (c.lastPurge ≤ e.2.ts))
    ∧ (∀ e ∈ (controlPurge C now prov c st).1.state.2.g.requirements, ¬ e.2.ts < c.lastPurge)
    ∧ (∀ (lb : String) (req : requirement), (lb, req) ∈ st.g.requirements →
        req.ts < c.lastPurge →
        mapGet (controlPurge C now prov c st).1.state.2.g.requirements lb = none)
    ∧ (controlPurge C now prov c st).1.state.2.g.total_wanted
        = sum64 ((st.g.requirements.filter (fun e => decide (c.lastPurge ≤ e.2.ts))).map
            (fun e => e.2.total_wanted))
    ∧ (controlPurge C now prov c st).1.state.2.cap_mx = false := by
  have hnd : (keys st.g.requirements).Nodup := hmap
  have htw : st.g.total_wanted = wrap64 (totals st.g.requirements).sum := by
    rw [hsum, sum64_eq]; rfl
  have hP := Purge_eq st.g c.lastPurge hnd
  have hcp : controlPurge C now prov c st
      = (Outcome.returned
          ({ c with nextPurge := now + PURGE_INTERVAL },
           { st with g := (target C now prov (Purge st.g c.lastPurge).1 now
                            (Purge st.g c.lastPurge).2.2).1 }),
         [ControlCall.Purge c.lastPurge, ControlCall.target now (Purge st.g c.lastPurge).2.2],
         (target C now prov (Purge st.g c.lastPurge).1 now (Purge st.g c.lastPurge).2.2).2) := by
    simp only [controlPurge, hfree, Bool.false_eq_true, if_false]
  have hreq : (controlPurge C now prov c st).1.state.2.g.requirements
      = st.g.requirements.filter (fun e => decide (c.lastPurge ≤ e.2.ts)) := by
    rw [hcp]
    simp only [Outcome.state]
    rw [(target_requirements _ _ _ _ _ _).1, hP]
    rfl
  have hgate : ¬ now - now > VALID_REQUEST_LIFETIME := by
    simp only [VALID_REQUEST_LIFETIME]; omega
  refine ⟨?_, ?_, ?_, ?_, hreq, ?_, ?_, ?_, ?_⟩
  · rw [hcp]; rfl
  · rw [hcp]
  · rw [hcp]
    simp only [Outcome.state, target, hgate, if_false]
  · rw [hP]
  · intro e he
    rw [hreq] at he
    have := (List.mem_filter.mp he).2
    simp only [decide_eq_true_eq] at this
    omega
  · intro lb req hmem hlt
    rw [hreq]
    apply mapGet_none_of_not_mem
    intro hk
    simp only [keys, List.mem_map, List.mem_filter, decide_eq_true_eq] at hk
    obtain ⟨e, ⟨he1, he2⟩, he3⟩ := hk
    have heq : e = (lb, req) :=
      List.inj_on_of_nodup_map hnd he1 hmem (by simpa using he3)
    rw [heq] at he2
    simp only at he2
    omega
  · rw [hcp]
    simp only [Outcome.state]
    rw [(target_requirements _ _ _ _ _ _).2, Purge_total _ _ hnd htw, sum64_eq]
    rfl
  · rw [hcp]
    exact hfree

/-- C15 (amended) at the first purge tick of a new group whose control loop
started at time 0, taken at 5 s: the tick returns, `Purge` is called with the
threshold 0 and `target` with the time of the tick and the total 0, and the
table is empty afterwards. -/
theorem purge_tick_uses_loop_threshold_witness :
    (controlPurge 512 5000000000 (fun n => some n) (controlInit 0) (newLBGroupState "G")).1.returns
        = true
    ∧ (controlPurge 512 5000000000 (fun n => some n) (controlInit 0) (newLBGroupState "G")).2.1
        = [ControlCall.Purge 0, ControlCall.target 5000000000 0]
    ∧ (controlPurge 512 5000000000 (fun n => some n) (controlInit 0)
        (newLBGroupState "G")).1.state.2.g.requirements = []
    ∧ (controlPurge 512 5000000000 (fun n => some n) (controlInit 0)
        (newLBGroupState "G")).1.state.2.g.total_wanted = 0 := by
  have h := purge_tick_uses_loop_threshold 512 5000000000 (fun n => some n) (controlInit 0)
    (newLBGroupState "G") rfl (by decide) (by decide)
  refine ⟨h.1, ?_, ?_, ?_⟩
  · rw [h.2.1]; decide
  · rw [h.2.2.2.2.1]; decide
  · rw [h.2.2.2.2.2.2.2.1]; decide

/-! ## Scale-up and scale-down postconditions -/

/-- C16 (reactivation before provisioning): on a fresh decision with
`wanted > target_capacity` the runners reactivated are a suffix of
`draining_runners`, taken last-drained first (`moved`); each is set ACTIVE and
appended to `active_runners` in that order and adds its capacity to both
counters; the suffix is the shortest that brings `target_capacity` to at least
`wanted`, or all of draining; and provision is called only if draining is then
empty and `target_capacity` still below `wanted`.  With one draining runner of
capacity 512, `target_capacity = 1024` and `wanted = 1100` the runner is
reactivated, `current_capacity` becomes 1536 and provision is not called. -/
theorem reactivation_before_provisioning (C now : Int) (prov : Int → Option Int) (s : lbGroup)
    (ts wanted : Int) (hfresh : now - ts ≤ VALID_REQUEST_LIFETIME)
    (hup : wanted > s.target_capacity) :
    (∃ keep moved : List runner,
      s.draining_runners = keep ++ moved.reverse
      ∧ (target C now prov s ts wanted).1.draining_runners = keep
      ∧ (target C now prov s ts wanted).1.active_runners
          = s.active_runners ++ moved.map (fun r => { r with status := RUNNER_ACTIVE })
      ∧ (target C now prov s ts wanted).1.current_capacity = addCaps s.current_capacity moved
      ∧ (reactivate wanted s.draining_runners.length s).target_capacity
          = addCaps s.target_capacity moved
      ∧ (∀ j, j < moved.length → wanted > addCaps s.target_capacity (moved.take j))
      ∧ (keep = [] ∨ wanted ≤ addCaps s.target_capacity moved)
      ∧ ((target C now prov s ts wanted).2 ≠ [] →
          keep = [] ∧ wanted > addCaps s.target_capacity moved)
      ∧ ((target C now prov s ts wanted).2 = [] →
          (target C now prov s ts wanted).1.target_capacity = addCaps s.target_capacity moved))
    ∧ drainedOne.draining_runners.map (fun r => r.capacity) = [512]
    ∧ drainedOne.target_capacity = 1024
    ∧ (target 512 now prov drainedOne now 1100).2 = []
    ∧ (target 512 now prov drainedOne now 1100).1.current_capacity = 1536
    ∧ (target 512 now prov drainedOne now 1100).1.draining_runners = []
    ∧ (target 512 now prov drainedOne now 1100).1.active_runners.map (fun r => (r.id, r.status))
        = [("r1", RUNNER_ACTIVE), ("r2", RUNNER_ACTIVE), ("r3", RUNNER_ACTIVE)] := by
  have hgate : ¬ now - ts > VALID_REQUEST_LIFETIME := by omega
  refine ⟨?_, ?_⟩
  · obtain ⟨keep, moved, h1, h2, h3, h4⟩ :=
      reactivate_spec wanted s.draining_runners.length s (le_refl _)
    refine ⟨keep, moved, h1, ?_⟩
    by_cases hs : wanted > addCaps s.target_capacity moved
    · have hk : keep = [] := by
        rcases h4 with h4 | h4
        · exact h4
        · exact absurd hs h4
      cases hp : prov (provisionCount C (wrap64 (wanted - addCaps s.target_capacity moved))) with
      | none =>
        have ht : target C now prov s ts wanted
            = ({ s with
                  draining_runners := keep,
                  active_runners := s.active_runners ++ moved.map markActive,
                  current_capacity := addCaps s.current_capacity moved,
                  target_capacity := addCaps s.target_capacity moved },
               [CPCall.ProvisionRunners s.id
                  (provisionCount C (wrap64 (wanted - addCaps s.target_capacity moved)))]) := by
          simp only [target, hgate, if_false, targetLocked, hup, if_true, h2, hs, hp]
        rw [ht, h2]
        exact ⟨rfl, rfl, rfl, rfl, h3, Or.inl hk, fun _ => ⟨hk, hs⟩,
          fun hc => absurd hc (List.cons_ne_nil _ _)⟩
      | some g =>
        have ht : target C now prov s ts wanted
            = ({ s with
                  draining_runners := keep,
                  active_runners := s.active_runners ++ moved.map markActive,
                  current_capacity := addCaps s.current_capacity moved,
                  target_capacity :=
                    wrap64 (addCaps s.target_capacity moved + wrap64 (g * C)) },
               [CPCall.ProvisionRunners s.id
                  (provisionCount C (wrap64 (wanted - addCaps s.target_capacity moved)))]) := by
          simp only [target, hgate, if_false, targetLocked, hup, if_true, h2, hs, hp]
        rw [ht, h2]
        exact ⟨rfl, rfl, rfl, rfl, h3, Or.inl hk, fun _ => ⟨hk, hs⟩,
          fun hc => absurd hc (List.cons_ne_nil _ _)⟩
    · have ht : target C now prov s ts wanted
          = ({ s with
                draining_runners := keep,
                active_runners := s.active_runners ++ moved.map markActive,
                current_capacity := addCaps s.current_capacity moved,
                target_capacity := addCaps s.target_capacity moved }, []) := by
        simp only [target, hgate, if_false, targetLocked, hup, if_true, h2, hs]
      rw [ht, h2]
      refine ⟨rfl, rfl, rfl, rfl, h3, ?_, fun hc => absurd rfl hc, fun _ => rfl⟩
      rcases h4 with h4 | h4
      · exact Or.inl h4
      · right; omega
  · have hg : ¬ now - now > VALID_REQUEST_LIFETIME := by
      simp only [VALID_REQUEST_LIFETIME]; omega
    simp only [target, hg, if_false]
    rw [drainedOne_eq]
    refine ⟨rfl, rfl, rfl, rfl, rfl, rfl⟩

/-- C16 at the group with two active runners and one draining runner and
`wanted = 1100`: the call trace is empty and the draining runner is back at the
end of `active_runners`. -/
theorem reactivation_before_provisioning_witness :
    (target 512 20 (fun n => some n) drainedOne 20 1100).2 = []
    ∧ (target 512 20 (fun n => some n) drainedOne 20 1100).1.current_capacity = 1536
    ∧ ∃ keep moved : List runner,
        drainedOne.draining_runners = keep ++ moved.reverse
        ∧ (target 512 20 (fun n => some n) drainedOne 20 1100).1.draining_runners = keep
        ∧ (target 512 20 (fun n => some n) drainedOne 20 1100).1.active_runners
            = drainedOne.active_runners ++ moved.map (fun r => { r with status := RUNNER_ACTIVE }) := by
  have h := reactivation_before_provisioning 512 20 (fun n => some n) drainedOne 20 1100
    (by decide) (by rw [drainedOne_eq]; decide)
  obtain ⟨⟨keep, moved, h1, h2, h3, _⟩, _, _, h4, h5, _⟩ := h
  exact ⟨h4, h5, keep, moved, h1, h2, h3⟩

/-- C17 (scale-down postcondition): on a fresh decision with
`wanted <= target_capacity` and `wanted < current_capacity - C` the runners
drained are a suffix of `active_runners`, taken most recently added first
(`moved`); each is set DRAINING with `kill_after = now + MAX_DRAINDOWN_LIFETIME`
and appended to `draining_runners` in that order and subtracts its capacity
from both counters; the suffix is the shortest after whose removal
`wanted >= current_capacity - C` holds, or all of active; nothing is asked of
the control plane.  With three active runners of capacity 512 and
`wanted = 600` exactly one runner is drained and `current_capacity` becomes
1024. -/
theorem scale_down_postcondition (C now : Int) (prov : Int → Option Int) (s : lbGroup)
    (ts wanted : Int) (hfresh : now - ts ≤ VALID_REQUEST_LIFETIME)
    (hle : wanted ≤ s.target_capacity) (hlow : wanted < wrap64 (s.current_capacity - C)) :
    (∃ keep moved : List runner,
      s.active_runners = keep ++ moved.reverse
      ∧ target C now prov s ts wanted
          = ({ s with
                active_runners := keep,
                draining_runners := s.draining_runners ++ moved.map (fun r =>
                  { r with status := RUNNER_DRAINING,
                           kill_after := now + MAX_DRAINDOWN_LIFETIME }),
                current_capacity := subCaps s.current_capacity moved,
                target_capacity := subCaps s.target_capacity moved }, [])
      ∧ (∀ j, j < moved.length →
          wanted < wrap64 (subCaps s.current_capacity (moved.take j) - C))
      ∧ (keep = [] ∨ wanted ≥ wrap64 (subCaps s.current_capacity moved - C))
      ∧ (s.active_runners ≠ [] → moved ≠ []))
    ∧ threeActive.active_runners.map (fun r => r.capacity) = [512, 512, 512]
    ∧ (target 512 now prov threeActive now 600).1.current_capacity = 1024
    ∧ (target 512 now prov threeActive now 600).1.active_runners.map (fun r => r.id)
        = ["r1", "r2"]
    ∧ (target 512 now prov threeActive now 600).1.draining_runners.map
          (fun r => (r.id, r.status, r.kill_after))
        = [("r3", RUNNER_DRAINING, now + MAX_DRAINDOWN_LIFETIME)] := by
  have hgate : ¬ now - ts > VALID_REQUEST_LIFETIME := by omega
  have hup : ¬ wanted > s.target_capacity := by omega
  refine ⟨?_, ?_⟩
  · obtain ⟨keep, moved, h1, h2, h3, h4⟩ :=
      drain_spec C now wanted s.active_runners.length s (le_refl _)
    refine ⟨keep, moved, h1, ?_, h3, ?_, ?_⟩
    · simp only [target, hgate, if_false, targetLocked, hup, hlow, if_true, h2]
      rfl
    · rcases h4 with h4 | h4
      · exact Or.inl h4
      · right; omega
    · intro hne hm
      subst hm
      simp only [List.reverse_nil, List.append_nil] at h1
      rcases h4 with h4 | h4
      · exact hne (h1.trans h4)
      · exact h4 (by simpa [subCaps] using hlow)
  · have hg : ¬ now - now > VALID_REQUEST_LIFETIME := by
      simp only [VALID_REQUEST_LIFETIME]; omega
    simp only [target, hg, if_false]
    rw [threeActive_eq]
    refine ⟨rfl, rfl, rfl, rfl⟩

/-- C17 at the group with three active runners of capacity 512 and
`wanted = 600` at time 10: the state after the decision is the group with two
active runners and `r3` draining. -/
theorem scale_down_postcondition_witness :
    (target 512 10 (fun n => some n) threeActive 10 600).1.current_capacity = 1024
    ∧ ∃ keep moved : List runner,
        threeActive.active_runners = keep ++ moved.reverse
        ∧ (target 512 10 (fun n => some n) threeActive 10 600).1.active_runners = keep
        ∧ (target 512 10 (fun n => some n) threeActive 10 600).2 = [] := by
  have h := scale_down_postcondition 512 10 (fun n => some n) threeActive 10 600
    (by decide) (by rw [threeActive_eq]; decide) (by rw [threeActive_eq]; decide)
  obtain ⟨⟨keep, moved, h1, h2, _⟩, _, h3, _⟩ := h
  exact ⟨h3, keep, moved, h1, by rw [h2], by rw [h2]⟩

/-- C18 (successful provision): on a fresh decision in which provision is
called and grants `granted` runners, the state after `target` is the state
after the reactivation loop with `granted * C` added to `target_capacity` (in
`int64`); the provisioning step adds no runner to `active_runners` and leaves
`current_capacity` as it was. -/
theorem successful_provision (C now : Int) (prov : Int → Option Int) (s : lbGroup)
    (ts wanted granted : Int) (hfresh : now - ts ≤ VALID_REQUEST_LIFETIME)
    (hshort : wanted > (reactivate wanted s.draining_runners.length s).target_capacity)
    (hgrant : prov (provisionCount C
        (wrap64 (wanted - (reactivate wanted s.draining_runners.length s).target_capacity)))
      = some granted) :
    (target C now prov s ts wanted).1
        = { reactivate wanted s.draining_runners.length s with
            target_capacity :=
              wrap64 ((reactivate wanted s.draining_runners.length s).target_capacity
                + granted * C) }
    ∧ (target C now prov s ts wanted).1.target_capacity
        = wrap64 ((reactivate wanted s.draining_runners.length s).target_capacity + granted * C)
    ∧ (target C now prov s ts wanted).1.active_runners
        = (reactivate wanted s.draining_runners.length s).active_runners
    ∧ (target C now prov s ts wanted).1.current_capacity
        = (reactivate wanted s.draining_runners.length s).current_capacity
    ∧ (target C now prov s ts wanted).2
        = [CPCall.ProvisionRunners s.id (provisionCount C
            (wrap64 (wanted - (reactivate wanted s.draining_runners.length s).target_capacity)))] := by
  have hgate : ¬ now - ts > VALID_REQUEST_LIFETIME := by omega
  have hup : wanted > s.target_capacity := by
    by_contra hle
    rw [reactivate_stop wanted s hle] at hshort
    exact hle hshort
  have h1 : target C now prov s ts wanted
      = ({ reactivate wanted s.draining_runners.length s with
            target_capacity :=
              wrap64 ((reactivate wanted s.draining_runners.length s).target_capacity
                + granted * C) },
         [CPCall.ProvisionRunners s.id (provisionCount C
            (wrap64 (wanted - (reactivate wanted s.draining_runners.length s).target_capacity)))]) := by
    simp only [target, hgate, if_false, targetLocked, hup, if_true, hshort, hgrant,
      (reactivate_frame wanted _ s).1, wrap64_add_right]
  rw [h1]
  exact ⟨rfl, rfl, rfl, rfl, rfl⟩

/-- C18 at a new group asked for 1500 at 512 per runner, the control plane
granting the 3 runners asked for: `target_capacity` becomes 1536, with no
active runner and `current_capacity` 0. -/
theorem successful_provision_witness :
    (target 512 0 (fun n => some n) (newLBGroup "G") 0 1500).1.target_capacity = 1536
    ∧ (target 512 0 (fun n => some n) (newLBGroup "G") 0 1500).1.active_runners = []
    ∧ (target 512 0 (fun n => some n) (newLBGroup "G") 0 1500).1.current_capacity = 0 := by
  have h := successful_provision 512 0 (fun n => some n) (newLBGroup "G") 0 1500 3
    (by decide) (by decide) (by decide)
  refine ⟨?_, ?_, ?_⟩
  · rw [h.2.1]; decide
  · rw [h.2.2.1]; decide
  · rw [h.2.2.2.1]; decide

/-! ## Poll step: expiry and reconciliation -/

theorem pollForRunners_calls (now : Int) (latestHosts : Option (List Host)) (s : lbGroup) :
    (pollForRunners now latestHosts s).2
      = (s.draining_runners.takeWhile (expired now)).map (fun r => CPCall.RemoveRunner s.id r.id)
        ++ [CPCall.GetLBGRunners s.id] := by
  unfold pollForRunners
  cases latestHosts with
  | none => simp only [expire_spec now _ s [] (le_refl _), List.nil_append]
  | some hosts => simp only [expire_spec now _ s [] (le_refl _), List.nil_append]

/-- C19 (drain expiry): the expiry loop of a poll step taken at time `now`
moves exactly the longest prefix of `draining_runners` whose `kill_after` is
strictly before `now` to the back of `dead_runners`, in order and marked DEAD,
and calls `RemoveRunner(group, id)` once for each of them and for no other
runner (its answer is only logged); the first runner with `kill_after >= now`
stops the loop and stays in draining with everything behind it;
`current_capacity`, `target_capacity` and the active runners are untouched.
The poll step ends with that draining list, and with that whole state when the
listing fails. -/
theorem drain_expiry (now : Int) (latestHosts : Option (List Host)) (s : lbGroup) :
    (expire now s.draining_runners.length (s, [])).1
        = { s with
            draining_runners :=
              s.draining_runners.dropWhile (fun r => decide (r.kill_after < now)),
            dead_runners :=
              s.dead_runners ++
                (s.draining_runners.takeWhile (fun r => decide (r.kill_after < now))).map
                  (fun r => { r with status := RUNNER_DEAD }) }
    ∧ (expire now s.draining_runners.length (s, [])).2
        = (s.draining_runners.takeWhile (fun r => decide (r.kill_after < now))).map
            (fun r => CPCall.RemoveRunner s.id r.id)
    ∧ s.draining_runners
        = s.draining_runners.takeWhile (fun r => decide (r.kill_after < now))
          ++ s.draining_runners.dropWhile (fun r => decide (r.kill_after < now))
    ∧ (∀ r ∈ s.draining_runners.takeWhile (fun r => decide (r.kill_after < now)),
        r.kill_after < now)
    ∧ (∀ front ∈ (s.draining_runners.dropWhile (fun r => decide (r.kill_after < now))).head?,
        now ≤ front.kill_after)
    ∧ (pollForRunners now latestHosts s).1.draining_runners
        = s.draining_runners.dropWhile (fun r => decide (r.kill_after < now))
    ∧ (pollForRunners now latestHosts s).2
        = (s.draining_runners.takeWhile (fun r => decide (r.kill_after < now))).map
            (fun r => CPCall.RemoveRunner s.id r.id)
          ++ [CPCall.GetLBGRunners s.id]
    ∧ (pollForRunners now none s).1 = (expire now s.draining_runners.length (s, [])).1 := by
  have hex : expired now = fun r => decide (r.kill_after < now) := rfl
  have hmd : markDead = fun r => { r with status := RUNNER_DEAD } := rfl
  have he := expire_spec now s.draining_runners.length s [] (le_refl _)
  rw [hex, hmd] at he
  have hd := pollForRunners_draining now latestHosts s
  have hc := pollForRunners_calls now latestHosts s
  rw [hex] at hd hc
  refine ⟨by rw [he], by rw [he]; rfl, (List.takeWhile_append_dropWhile _ _).symm, ?_, ?_,
    hd, hc, rfl⟩
  · intro r hr
    have := List.mem_takeWhile_imp hr
    simpa using this
  · intro front hfront
    cases hdw : s.draining_runners.dropWhile (fun r => decide (r.kill_after < now)) with
    | nil => rw [hdw] at hfront; simp at hfront
    | cons a rest =>
      rw [hdw] at hfront
      simp only [List.head?_cons, Option.mem_def, Option.some.injEq] at hfront
      subst hfront
      have hh := List.head_dropWhile_not (fun r : runner => decide (r.kill_after < now))
        s.draining_runners (by rw [hdw]; exact List.cons_ne_nil _ _)
      simp only [hdw, List.head_cons, decide_eq_false_iff_not, not_lt] at hh
      exact hh

/-- C20 at a failing run: a new group polls and the control plane lists the
one runner `r1`, which becomes active; the next poll lists `r1` again.  The
group has an active runner with that id, but `lbg.runners`, the only place
where `pollForRunners` looks, is still empty, so `r1` is inserted a second time
and `current_capacity` grows from 512 to 1024. -/
theorem known_runner_inserted_again :
    polledOnce.active_runners.map (fun r => r.id) = ["r1"]
    ∧ polledOnce.current_capacity = 512
    ∧ polledOnce.runners = []
    ∧ (pollForRunners 2 (some oneHost) polledOnce).1.active_runners.map (fun r => r.id)
        = ["r1", "r1"]
    ∧ (pollForRunners 2 (some oneHost) polledOnce).1.current_capacity = 1024
    ∧ (pollForRunners 2 (some oneHost) polledOnce).1.active_runners ≠ polledOnce.active_runners
    ∧ (pollForRunners 2 (some oneHost) polledOnce).1.current_capacity
        ≠ polledOnce.current_capacity := by
  refine ⟨by decide, by decide, by decide, by decide, by decide, by decide, by decide⟩

/-! ## Poll step: the dead set -/

theorem reconcile_seen (hosts : List Host) :
    ∀ acc : lbGroup × List String, acc.1.runners = [] →
      (hosts.foldl reconcileStep acc).2 = acc.2 := by
  induction hosts with
  | nil => intro acc _; rfl
  | cons host rest ih =>
    intro acc h
    rw [List.foldl_cons]
    have hstep : reconcileStep acc host
        = ({ acc.1 with
              active_runners := acc.1.active_runners ++
                [{ id := host.Id, address := host.Address, status := RUNNER_ACTIVE,
                   capacity := host.Capacity, kill_after := 0 }],
              current_capacity := wrap64 (acc.1.current_capacity + host.Capacity) },
           acc.2) := by
      simp only [reconcileStep, h, mapGet]
    rw [ih _ (by rw [hstep]; exact h), hstep]

theorem pollForRunners_dead_of_no_runners (now : Int) (hosts : List Host) (s : lbGroup)
    (h : s.runners = []) : (pollForRunners now (some hosts) s).1.dead_runners = [] := by
  have he := expire_spec now s.draining_runners.length s [] (le_refl _)
  simp only [pollForRunners]
  rw [reconcile_seen hosts _ (by rw [he]; exact h)]
  simp

theorem run_reachable_runners {gid : String} {C : Int} {s : lbGroup}
    (h : RunReachable gid C s) : s.runners = [] := by
  induction h with
  | init => rfl
  | @target s now prov ts tgt _ ih =>
    have hf := reactivate_frame tgt s.draining_runners.length s
    simp only [target, targetLocked]
    split
    · exact ih
    · split
      · split
        · split <;> exact hf.2.2.2.1.trans ih
        · exact hf.2.2.2.1.trans ih
      · split
        · obtain ⟨keep, moved, _, h2, _, _⟩ :=
            drain_spec C now tgt s.active_runners.length s (le_refl _)
          rw [h2]
          exact ih
        · exact ih
  | @poll s now latestHosts _ ih =>
    have he := expire_spec now s.draining_runners.length s [] (le_refl _)
    unfold pollForRunners
    cases latestHosts with
    | none => simp only [he]; exact ih
    | some hosts =>
      simp only
      rw [(reconcile_frame hosts _).2.2.2.1, he]
      exact ih

set_option maxRecDepth 20000 in
/-- C21 at a failing run: the reachable group with `r1` active and `r2`
draining polls after `r2` is due, and the control plane still lists `r1` and
`r2`.  `r2` is moved to dead and its removal is asked for, but the `seen` set
is only filled from `lbg.runners`, which is never written, so the dead set is
emptied although `r2` is still listed (and `r1` and `r2` are inserted as new
active runners).  The same happens on every successful poll of every
reachable state. -/
theorem listed_dead_runner_is_dropped :
    RunReachable "G" 512 oneActiveOneDraining
    ∧ (expire 200000000000 oneActiveOneDraining.draining_runners.length
        (oneActiveOneDraining, [])).1.dead_runners.map (fun r => (r.id, r.status))
        = [("r2", RUNNER_DEAD)]
    ∧ (pollForRunners 200000000000 (some twoHosts) oneActiveOneDraining).2
        = [CPCall.RemoveRunner "G" "r2", CPCall.GetLBGRunners "G"]
    ∧ "r2" ∈ twoHosts.map (fun h => h.Id)
    ∧ (pollForRunners 200000000000 (some twoHosts) oneActiveOneDraining).1.dead_runners = []
    ∧ (pollForRunners 200000000000 (some twoHosts) oneActiveOneDraining).1.active_runners.map
          (fun r => r.id) = ["r1", "r1", "r2"]
    ∧ (∀ (gid : String) (C : Int) (s : lbGroup), RunReachable gid C s →
        ∀ (now : Int) (hosts : List Host),
          (pollForRunners now (some hosts) s).1.dead_runners = []) := by
  refine ⟨oneActiveOneDraining_reachable, ?_, ?_, by decide, ?_, ?_, ?_⟩
  · rw [oneActiveOneDraining_eq]; decide
  · rw [oneActiveOneDraining_eq]; decide
  · rw [oneActiveOneDraining_eq]; decide
  · rw [oneActiveOneDraining_eq]; decide
  · intro gid C s hs now hosts
    exact pollForRunners_dead_of_no_runners now hosts s (run_reachable_runners hs)

/-- C22 (poll with a failing listing): when `GetLBGRunners` returns an error
the poll step ends after the expiry loop: `active_runners`,
`current_capacity` and `target_capacity` are unchanged, draining has lost the
expired prefix, and `dead_runners` is the previous dead list followed by the
runners expired in this step, marked DEAD; the only calls made are the
removals and the failed listing. -/
theorem poll_with_failing_listing (now : Int) (s : lbGroup) :
    (pollForRunners now none s).1
        = { s with
            draining_runners :=
              s.draining_runners.dropWhile (fun r => decide (r.kill_after < now)),
            dead_runners :=
              s.dead_runners ++
                (s.draining_runners.takeWhile (fun r => decide (r.kill_after < now))).map
                  (fun r => { r with status := RUNNER_DEAD }) }
    ∧ (pollForRunners now none s).1.active_runners = s.active_runners
    ∧ (pollForRunners now none s).1.current_capacity = s.current_capacity
    ∧ (pollForRunners now none s).1.target_capacity = s.target_capacity
    ∧ s.dead_runners <+: (pollForRunners now none s).1.dead_runners
    ∧ (pollForRunners now none s).1.dead_runners.length
        = s.dead_runners.length
          + (s.draining_runners.takeWhile (fun r => decide (r.kill_after < now))).length
    ∧ (pollForRunners now none s).2
        = (s.draining_runners.takeWhile (fun r => decide (r.kill_after < now))).map
            (fun r => CPCall.RemoveRunner s.id r.id)
          ++ [CPCall.GetLBGRunners s.id] := by
  have hex : expired now = fun r => decide (r.kill_after < now) := rfl
  have hmd : markDead = fun r => { r with status := RUNNER_DEAD } := rfl
  have he := expire_spec now s.draining_runners.length s [] (le_refl _)
  rw [hex, hmd] at he
  have hp : pollForRunners now none s
      = ((expire now s.draining_runners.length (s, [])).1,
         (expire now s.draining_runners.length (s, [])).2
           ++ [CPCall.GetLBGRunners (expire now s.draining_runners.length (s, [])).1.id]) := rfl
  rw [hp, he]
  refine ⟨rfl, rfl, rfl, rfl, List.prefix_append _ _, by simp, by simp⟩

/-! ## Scale-down keeps enough capacity -/

theorem sum_capacities_nonneg (l : List runner) (h : ∀ r ∈ l, 0 ≤ r.capacity) :
    0 ≤ (capacities l).sum := by
  apply List.sum_nonneg
  intro x hx
  simp only [capacities, List.mem_map] at hx
  obtain ⟨y, hy, rfl⟩ := hx
  exact h y hy

theorem subCaps_eq_sub (l : List runner) :
    ∀ t : Int, (∀ r ∈ l, 0 ≤ r.capacity) → (capacities l).sum ≤ t → t < 2 ^ 63 →
      subCaps t l = t - (capacities l).sum := by
  induction l with
  | nil => intro t _ _ _; simp [subCaps, capacities]
  | cons r rest ih =>
    intro t hnn hle hlt
    have hr : 0 ≤ r.capacity := hnn r (List.mem_cons_self _ _)
    have hrest : ∀ x ∈ rest, 0 ≤ x.capacity := fun x hx => hnn x (List.mem_cons_of_mem _ hx)
    have hs := sum_capacities_nonneg rest hrest
    simp only [capacities, List.map_cons, List.sum_cons] at hle hs ⊢
    have hw : wrap64 (t - r.capacity) = t - r.capacity := wrap64_of_range (by omega) (by omega)
    have := ih (t - r.capacity) hrest (by simp only [capacities]; omega) (by omega)
    simp only [subCaps, List.foldl_cons, hw, capacities] at this ⊢
    rw [this]
    ring

theorem target_drains_only_in_drain_branch (C now : Int) (prov : Int → Option Int) (s : lbGroup)
    (ts wanted : Int)
    (hdrain : (target C now prov s ts wanted).1.active_runners.length
      < s.active_runners.length) :
    target C now prov s ts wanted = (drain C now wanted s.active_runners.length s, []) := by
  have hf := (reactivate_frame wanted s.draining_runners.length s).2.2.2.2.2.1
  have hlen := hf.length_le
  simp only [target, targetLocked] at hdrain ⊢
  split at hdrain
  · simp only at hdrain; omega
  · split at hdrain
    · split at hdrain
      · split at hdrain <;> (simp only at hdrain; omega)
      · simp only at hdrain; omega
    · split at hdrain
      · rename_i h1 h2 h3
        simp only [h1, h2, h3, if_false, if_true]
      · simp only at hdrain; omega

/-- C24 (scale-down never under-provisions): in a group whose active runners
all have capacity `C` with `0 < C`, whose `current_capacity` is the sum of the
active capacities (`C` and that sum being `int64` values), a decision that
drains at least one runner leaves `current_capacity` strictly greater than
`wanted`, and at most `wanted + C` unless no active runner is left. -/
theorem scale_down_never_under_provisions (C now : Int) (prov : Int → Option Int) (s : lbGroup)
    (ts wanted : Int) (hC : 0 < C) (hC2 : C < 2 ^ 63)
    (hcap : ∀ r ∈ s.active_runners, r.capacity = C)
    (hsum : s.current_capacity = (s.active_runners.map (fun r => r.capacity)).sum)
    (hrange : s.current_capacity < 2 ^ 63)
    (hdrain : (target C now prov s ts wanted).1.active_runners.length
      < s.active_runners.length) :
    (target C now prov s ts wanted).1.current_capacity > wanted
    ∧ ((target C now prov s ts wanted).1.active_runners ≠ [] →
        (target C now prov s ts wanted).1.current_capacity ≤ wanted + C) := by
  have ht := target_drains_only_in_drain_branch C now prov s ts wanted hdrain
  obtain ⟨keep, moved, h1, h2, h3, h4⟩ :=
    drain_spec C now wanted s.active_runners.length s (le_refl _)
  rw [ht] at hdrain ⊢
  rw [h2] at hdrain ⊢
  simp only at hdrain ⊢
  have hmne : moved ≠ [] := by
    intro hm
    rw [h1, hm] at hdrain
    simp at hdrain
  have hkeep : ∀ r ∈ keep, r.capacity = C := fun r hr =>
    hcap r (by rw [h1]; exact List.mem_append_left _ hr)
  have hmoved : ∀ r ∈ moved, r.capacity = C := fun r hr =>
    hcap r (by rw [h1]; exact List.mem_append_right _ (List.mem_reverse.mpr hr))
  have hsplit : s.current_capacity = (capacities keep).sum + (capacities moved).sum := by
    rw [hsum, h1]
    simp [capacities, List.sum_reverse]
  have hkn := sum_capacities_nonneg keep (fun r hr => by rw [hkeep r hr]; omega)
  have hmn : ∀ r ∈ moved, 0 ≤ r.capacity := fun r hr => by rw [hmoved r hr]; omega
  have hcur : subCaps s.current_capacity moved = (capacities keep).sum := by
    rw [subCaps_eq_sub moved _ hmn (by omega) hrange]
    omega
  have hlast : moved.take (moved.length - 1) ++ [moved.getLast hmne] = moved := by
    rw [← List.dropLast_eq_take]
    exact List.dropLast_append_getLast hmne
  have hlc : (moved.getLast hmne).capacity = C := hmoved _ (List.getLast_mem hmne)
  have hsum2 : (capacities moved).sum
      = (capacities (moved.take (moved.length - 1))).sum + C := by
    conv_lhs => rw [← hlast]
    simp [capacities, hlc]
  have htn : ∀ r ∈ moved.take (moved.length - 1), 0 ≤ r.capacity :=
    fun r hr => hmn r (List.mem_of_mem_take hr)
  have htn2 := sum_capacities_nonneg _ htn
  have hpos : 0 < moved.length := List.length_pos.mpr hmne
  have hmin := h3 (moved.length - 1) (by omega)
  rw [subCaps_eq_sub _ _ htn (by omega) hrange] at hmin
  have hw : wrap64 (s.current_capacity - (capacities (moved.take (moved.length - 1))).sum - C)
      = (capacities keep).sum := by
    rw [wrap64_of_range (by omega) (by omega)]
    omega
  rw [hw] at hmin
  rw [hcur]
  refine ⟨hmin, ?_⟩
  intro hk
  rcases h4 with h4 | h4
  · exact absurd h4 hk
  · rw [hcur] at h4
    have hge : C ≤ (capacities keep).sum := by
      cases keep with
      | nil => exact absurd rfl hk
      | cons r rest =>
        have h0 := sum_capacities_nonneg rest (fun x hx => by
          rw [hkeep x (List.mem_cons_of_mem _ hx)]; omega)
        have hr := hkeep r (List.mem_cons_self _ _)
        simp only [capacities, List.map_cons, List.sum_cons] at h0 ⊢
        omega
    rw [wrap64_of_range (by omega) (by omega)] at h4
    omega

/-- C24 at the group with three active runners of capacity 512 and
`wanted = 600`: one runner is drained and `current_capacity` is 1024, above
600 and at most 600 + 512. -/
theorem scale_down_never_under_provisions_witness :
    (target 512 10 (fun n => some n) threeActive 10 600).1.active_runners.length
        < threeActive.active_runners.length
    ∧ (target 512 10 (fun n => some n) threeActive 10 600).1.current_capacity > 600
    ∧ (target 512 10 (fun n => some n) threeActive 10 600).1.current_capacity ≤ 600 + 512 := by
  have hd : (target 512 10 (fun n => some n) threeActive 10 600).1.active_runners.length
      < threeActive.active_runners.length := by rw [threeActive_eq]; decide
  have hne : (target 512 10 (fun n => some n) threeActive 10 600).1.active_runners ≠ [] := by
    rw [threeActive_eq]; decide
  have h := scale_down_never_under_provisions 512 10 (fun n => some n) threeActive 10 600
    (by decide) (by decide) (by rw [threeActive_eq]; decide) (by rw [threeActive_eq]; decide)
    (by rw [threeActive_eq]; decide) hd
  exact ⟨hd, h.1, h.2 hne⟩

/-! ## Channel and registry lock -/

/-- C23 at a failing run: the controller made by `newLBGroup` has no
capacity-change channel (`controlStream` is nil), so the first
`UpdateRequirements("lb1", 600)` on a new group blocks in its send and does
not return, whether or not the control loop is waiting to receive; with a
channel of capacity 1 the same call would enqueue `(now, 600)` and return. -/
theorem first_update_blocks_on_nil_channel :
    newLBGroup_controlStream = none
    ∧ (∀ c : Chan, newLBGroup_controlStream ≠ some c)
    ∧ UpdateRequirementsSend newLBGroup_controlStream true (newLBGroup "G") "lb1" 600 10 = none
    ∧ UpdateRequirementsSend newLBGroup_controlStream false (newLBGroup "G") "lb1" 600 10 = none
    ∧ (∀ (ready : Bool) (gid lb : String) (total now : Int),
        UpdateRequirementsSend newLBGroup_controlStream ready (newLBGroup gid) lb total now
          = none)
    ∧ (UpdateRequirementsSend (some ⟨1, []⟩) false (newLBGroup "G") "lb1" 600 10).map
          (fun r => r.2) = some (some ⟨1, [⟨10, 600⟩]⟩) := by
  refine ⟨rfl, ?_, rfl, rfl, ?_, by decide⟩
  · intro c h
    simp [newLBGroup_controlStream] at h
  · intro ready gid lb total now
    rfl

/-- C25 at a failing run: a call of `LBGroup` that starts with the lock free
and finds the group ends with the lock free, but a call that creates the group
ends with the write lock held (the deferred call is `m.mx.Lock()`, and nothing
unlocks); the map is written while no lock is held; and on the lock so left
every later `LBGroup` call blocks.  On an empty registry `LBGroup("G")` leaves
the lock write-locked. -/
theorem creating_LBGroup_call_leaves_lock_held :
    (LBGroupSync RWMutex.free NewCapacityManager "G").map (fun r => r.1)
        = some { readers := 0, writer := true }
    ∧ (LBGroupSync RWMutex.free NewCapacityManager "G").map (fun r => r.1)
        ≠ some RWMutex.free
    ∧ LBGroupLockAtWrite RWMutex.free NewCapacityManager "G" = some RWMutex.free
    ∧ (∀ (m : capacityManager) (lbgid : String), m.lbg lbgid = none →
        (LBGroupSync RWMutex.free m lbgid).map (fun r => r.1)
          = some { readers := 0, writer := true })
    ∧ (∀ (m : capacityManager) (lbgid : String) (g : lbGroup), m.lbg lbgid = some g →
        (LBGroupSync RWMutex.free m lbgid).map (fun r => r.1) = some RWMutex.free)
    ∧ (∀ (m : capacityManager) (lbgid : String),
        LBGroupSync { readers := 0, writer := true } m lbgid = none) := by
  refine ⟨?_, ?_, rfl, ?_, ?_, ?_⟩
  · rw [LBGroupSync_free]; rfl
  · rw [LBGroupSync_free]; decide
  · intro m lbgid h
    rw [LBGroupSync_free, h]
    rfl
  · intro m lbgid g h
    rw [LBGroupSync_free, h]
    rfl
  · intro m lbgid
    rfl

end poolmanager

namespace server

/-- C26 at a failing request: the body binds to a function with id `fn-a`
while the path names `fn-b`.  The handler reports `ErrIDMismatch` but does not
return: it goes on to call `UpdateFn` with the body and writes a second
response, 200 with the function.  This holds for every request with differing
ids: `UpdateFn` is called and three effects, two of them responses, are
produced. -/
theorem id_mismatch_still_updates :
    handleFnPut (Except.ok ⟨"fn-a", "{}"⟩) "fn-b" (fun fn => Except.ok fn)
        = [Effect.handleErrorResponse models.Err.ErrIDMismatch,
           Effect.UpdateFn ⟨"fn-a", "{}"⟩,
           Effect.JSON 200 ⟨"fn-a", "{}"⟩]
    ∧ (∀ (fn : Fn) (fnId : String) (UpdateFn : Fn → Except models.Err Fn), fnId ≠ fn.ID →
        (handleFnPut (Except.ok fn) fnId UpdateFn).take 2
            = [Effect.handleErrorResponse models.Err.ErrIDMismatch, Effect.UpdateFn fn]
        ∧ (handleFnPut (Except.ok fn) fnId UpdateFn).length = 3) := by
  refine ⟨by decide, ?_⟩
  intro fn fnId UpdateFn hne
  simp only [handleFnPut, hne, ne_eq, not_false_eq_true, if_true]
  cases UpdateFn fn <;> simp

end server

namespace models

theorem ite_some_eq_none {α : Type} {c : Prop} [Decidable c] {e : α} {r : Option α}
    (h : (if c then some e else r) = none) : ¬ c ∧ r = none := by
  by_cases hc : c
  · rw [if_pos hc] at h
    exact absurd h (by simp)
  · rw [if_neg hc] at h
    exact ⟨hc, h⟩

theorem nameRunesOk_forall (x : Externals) (l : List Char) (h : nameRunesOk x l = true) :
    ∀ c ∈ l, x.IsLetter c = true ∨ x.IsNumber c = true ∨ c = '_' ∨ c = '-' := by
  induction l with
  | nil => intro c hc; simp at hc
  | cons a rest ih =>
    intro c hc
    unfold nameRunesOk at h
    split at h
    · exact absurd h (by simp)
    · rename_i hok
      rcases List.mem_cons.mp hc with h1 | h1
      · subst h1
        simp only [Bool.not_eq_true, Bool.not_eq_false', Bool.or_eq_true, beq_iff_eq] at hok
        rcases hok with ((h2 | h2) | h2) | h2
        · exact Or.inl h2
        · exact Or.inr (Or.inl h2)
        · exact Or.inr (Or.inr (Or.inl h2))
        · exact Or.inr (Or.inr (Or.inr h2))
      · exact ih h c h1

/-- C27 (trigger creation implies validity): if `ValidCreate` returns nil then
`Validate` returns nil, and moreover the id is empty, both timestamps are zero,
the name is not empty, at most `maxTriggerName` bytes long, and made of runes
that `unicode.IsLetter` or `unicode.IsNumber` accepts or that are `_` or
`-`. -/
theorem valid_create_implies_validate (x : Externals) (t : Trigger)
    (h : ValidCreate x t = none) :
    Validate x t = none
    ∧ t.ID = ""
    ∧ t.CreatedAt = 0
    ∧ t.UpdatedAt = 0
    ∧ t.Name ≠ ""
    ∧ t.Name.utf8ByteSize ≤ x.maxTriggerName
    ∧ (∀ c ∈ t.Name.data, x.IsLetter c = true ∨ x.IsNumber c = true ∨ c = '_' ∨ c = '-')
    ∧ t.AppID ≠ "" ∧ t.FnID ≠ "" ∧ validTriggerType t.TriggerType = true ∧ t.Source ≠ ""
    ∧ x.AnnotationsValidate t.Annotations = none := by
  unfold ValidCreate at h
  obtain ⟨h1, h⟩ := ite_some_eq_none h
  obtain ⟨h2, h⟩ := ite_some_eq_none h
  obtain ⟨h3, h⟩ := ite_some_eq_none h
  obtain ⟨h4, h⟩ := ite_some_eq_none h
  obtain ⟨h5, h⟩ := ite_some_eq_none h
  obtain ⟨h6, h⟩ := ite_some_eq_none h
  obtain ⟨h7, h⟩ := ite_some_eq_none h
  obtain ⟨h8, h⟩ := ite_some_eq_none h
  obtain ⟨h9, h⟩ := ite_some_eq_none h
  obtain ⟨h10, h⟩ := ite_some_eq_none h
  have hann : x.AnnotationsValidate t.Annotations = none := by
    cases ha : x.AnnotationsValidate t.Annotations with
    | none => rfl
    | some e => rw [ha] at h; exact absurd h (by simp)
  have hty : validTriggerType t.TriggerType = true := by
    cases hv : validTriggerType t.TriggerType with
    | true => rfl
    | false => exact absurd hv h9
  have hrunes : nameRunesOk x t.Name.data = true := by
    cases hv : nameRunesOk x t.Name.data with
    | true => rfl
    | false => exact absurd hv h6
  refine ⟨?_, not_not.mp h1, not_not.mp h2, not_not.mp h3, h4, by omega,
    nameRunesOk_forall x _ hrunes, h7, h8, hty, h10, hann⟩
  simp [Validate, h4, h7, h8, hty, h10, hann]

/-- C27 at a trigger posted for creation with the name `my-trigger_1`. -/
theorem valid_create_implies_validate_witness :
    ValidCreate exampleExternals exampleTrigger = none
    ∧ Validate exampleExternals exampleTrigger = none
    ∧ exampleTrigger.Name.utf8ByteSize ≤ exampleExternals.maxTriggerName :=
  ⟨by decide,
    (valid_create_implies_validate exampleExternals exampleTrigger (by decide)).1,
    (valid_create_implies_validate exampleExternals exampleTrigger (by decide)).2.2.2.2.2.1⟩

end models
